import Mathlib

/-
Shallow embedding of the super_orchestrator container network engine and
dockerfile assembler.

Sources embedded:
* src/src/docker_network.rs — `RunState`, `ContainerState`, `ContainerNetwork`
  with `terminate`, `terminate_all`, `run_internal`, `wait_with_timeout`,
  `error_compilation`, `get_active_container_ids`.
* src/super_orchestrator/src/api_docker/super_docker_file.rs — `SuperDockerfile`
  with `append_dockerfile_lines_mut`, `copying_from_paths`,
  `create_dockerfile_returning_file_handle`, `into_bollard_args`.
* src/src/bld/super_configurator/super_tar.rs — `SuperTarballWrapper`
  (`append_file`, `into_tarball`); the api_docker `Tarball` is not under src/
  and is modelled after this wrapper and the spec.

External effects (docker subprocesses, the filesystem, the subprocess runner)
are modelled by oracles: pure functions that fix, for each invocation site, the
outcome the external world would deliver.  `BTreeMap<String, _>` is modelled as
an association list with unique keys; no modelled claim depends on the
key-sorted iteration order of a BTreeMap.
-/

set_option maxRecDepth 10000

/-- Result of a completed child process.  `CommandResult` itself lives outside
src/ (the subprocess runner crate); the spec (§6) gives its contract: exit
status plus captured stdout/stderr, a successfulness test, and a marker for
processes that were stopped by `terminate()`.  `stdout` carries the captured
stdout as used by `error_compilation`. -/
structure CommandResult where
  stdout : String
  successful : Bool
  terminated : Bool
deriving DecidableEq, Repr

/-- Modelled from the spec: `successful_or_terminated` on a command result is
true when the process exited successfully or was stopped by a `terminate()`
call (src/src/docker_network.rs uses it at line 558). -/
def CommandResult.successful_or_terminated (r : CommandResult) : Bool :=
  r.successful || r.terminated

/-- Static oracle for the non-blocking completion query
`runner.wait_with_timeout(Duration::ZERO)` on a supervising runner:
the child has already exited with result `r`, is still running, or the
query itself fails with a non-timeout error. -/
inductive RunnerStatus where
  | finished (r : CommandResult)
  | running
  | pollFailed
deriving DecidableEq, Repr

/-- Modelled from the spec (§6): the subprocess runner.  `status` is the static
outcome of a zero-duration completion query; `termResult` is what
`take_command_result()` returns once the runner has been terminated (the code
handles both `Some` and `None`). -/
structure CommandRunner where
  status : RunnerStatus
  termResult : Option CommandResult
deriving DecidableEq, Repr

/-- src/src/docker_network.rs `RunState`: `PreActive` is the `#[default]`
variant, which is what `mem::take` leaves behind. -/
inductive RunState where
  | PreActive
  | Active (runner : CommandRunner)
  | PostActive (r : CommandResult)
deriving DecidableEq, Repr

/-- The `Dockerfile` enum (variants as matched by
src/src/docker_network.rs and super_docker_file.rs): a prebuilt `name:tag`
image reference, a host path to a Dockerfile, or inline contents. -/
inductive Dockerfile where
  | NameTag (s : String)
  | Path (p : String)
  | Contents (c : String)
deriving DecidableEq, Repr

/-- Container spec value object.  Only the fields that the embedded control
flow inspects are carried (`name`, `dockerfile`); the remaining fields
(volumes, entrypoint args, ports, env, log sinks, build args) are opaque to
every modelled operation and are omitted. -/
structure Container where
  name : String
  dockerfile : Dockerfile
deriving DecidableEq, Repr

/-- src/src/docker_network.rs `ContainerState`. -/
structure ContainerState where
  container : Container
  run_state : RunState
  active_container_id : Option String
  already_tried_drop : Bool
deriving DecidableEq, Repr

/-- `ContainerState::new`. -/
def ContainerState.new (c : Container) : ContainerState :=
  { container := c
    run_state := RunState.PreActive
    active_container_id := none
    already_tried_drop := false }

/-- `ContainerState::is_active`. -/
def ContainerState.is_active (cs : ContainerState) : Bool :=
  match cs.run_state with
  | RunState.Active _ => true
  | _ => false

/-- `CommandRunner::take_command_result` as observed after `terminate()`. -/
def CommandRunner.take_command_result (r : CommandRunner) : Option CommandResult :=
  r.termResult

/-- `ContainerState::terminate` (docker_network.rs lines 63-81).  The external
`docker rm -f` is effect-free on the modelled state.  `mem::take` replaces
`run_state` with the default `PreActive` and the match then acts on the taken
value: an `Active` runner is terminated and its result, when produced, is
stored back as `PostActive`; in the `PreActive` and `PostActive` arms nothing
is stored back, so the field keeps the `PreActive` left by `mem::take`. -/
def ContainerState.terminate (cs : ContainerState) : ContainerState :=
  let cs1 : ContainerState := { cs with active_container_id := none }
  match cs.run_state with
  | RunState.PreActive => { cs1 with run_state := RunState.PreActive }
  | RunState.Active runner =>
      match runner.take_command_result with
      | some result => { cs1 with run_state := RunState.PostActive result }
      | none => { cs1 with run_state := RunState.PreActive }
  | RunState.PostActive _ => { cs1 with run_state := RunState.PreActive }

/-- Association-list lookup, modelling `BTreeMap::get`. -/
def lookupState : List (String × ContainerState) → String → Option ContainerState
  | [], _ => none
  | (k, v) :: rest, n => if k = n then some v else lookupState rest n

/-- Association-list in-place update, modelling `BTreeMap::get_mut` followed by
a mutation; a missing key is left unchanged. -/
def updateState (f : ContainerState → ContainerState) :
    List (String × ContainerState) → String → List (String × ContainerState)
  | [], _ => []
  | (k, v) :: rest, n =>
      if k = n then (k, f v) :: rest else (k, v) :: updateState f rest n

/-- src/src/docker_network.rs `ContainerNetwork`.  The `uuid` field is opaque
to every modelled operation and is omitted. -/
structure ContainerNetwork where
  network_name : String
  network_args : List String
  set : List (String × ContainerState)
  dockerfile_write_dir : Option String
  log_dir : String
  network_active : Bool
deriving DecidableEq, Repr

/-- `ContainerNetwork::new`. -/
def ContainerNetwork.new (network_name : String) (dockerfile_write_dir : Option String)
    (log_dir : String) : ContainerNetwork :=
  { network_name := network_name
    network_args := []
    set := []
    dockerfile_write_dir := dockerfile_write_dir
    log_dir := log_dir
    network_active := false }

/-- `ContainerNetwork::add_container`: rejects `Dockerfile::Contents` without a
write dir and duplicate names; otherwise inserts a fresh `ContainerState`.
Returns the engine and whether the insertion succeeded (`Ok`/`Err`).
`BTreeMap` insertion position (key order) is irrelevant to the modelled
claims, so the model appends. -/
def ContainerNetwork.add_container (cn : ContainerNetwork) (c : Container) :
    ContainerNetwork × Bool :=
  if cn.dockerfile_write_dir.isNone ∧
      (match c.dockerfile with | Dockerfile.Contents _ => true | _ => false) = true then
    (cn, false)
  else
    match lookupState cn.set c.name with
    | some _ => (cn, false)
    | none => ({ cn with set := cn.set ++ [(c.name, ContainerState.new c)] }, true)

/-- `ContainerNetwork::terminate(names)`: terminate each listed container that
is present in the set (docker_network.rs lines 307-318). -/
def ContainerNetwork.terminateNames (cn : ContainerNetwork) (names : List String) :
    ContainerNetwork :=
  names.foldl
    (fun acc n => { acc with set := updateState ContainerState.terminate acc.set n }) cn

/-- `ContainerNetwork::terminate_containers`: terminate every container,
leaving the network flag untouched. -/
def ContainerNetwork.terminate_containers (cn : ContainerNetwork) : ContainerNetwork :=
  { cn with set := cn.set.map (fun kv => (kv.1, kv.2.terminate)) }

/-- `ContainerNetwork::terminate_all`: terminate all containers and then, if
`network_active`, run `docker network rm` (effect-free here) and clear the
flag; an already-false flag stays false. -/
def ContainerNetwork.terminate_all (cn : ContainerNetwork) : ContainerNetwork :=
  { cn.terminate_containers with network_active := false }

/-- `ContainerNetwork::get_active_container_ids` (lines 273-281): collects
`(name, id)` for every active container, `unwrap`ping the id.  An `unwrap` on
a `None` id — a panic in Rust — is modelled as `none`. -/
def getActiveIdsAux : List (String × ContainerState) → Option (List (String × String))
  | [] => some []
  | (n, cs) :: rest =>
      if cs.is_active then
        match cs.active_container_id with
        | some id => (getActiveIdsAux rest).map (fun v => (n, id) :: v)
        | none => none
      else getActiveIdsAux rest

/-- See `getActiveIdsAux`. -/
def ContainerNetwork.get_active_container_ids (cn : ContainerNetwork) :
    Option (List (String × String)) :=
  getActiveIdsAux cn.set

/-- Errors surfaced by `run_internal`, one constructor per `return Err` site. -/
inductive RunErr where
  | dupName (n : String)
  | alreadyActive (n : String)
  | notInNetwork (n : String)
  | dockerfilePathErr (n : String)
  | writeDirErr
  | logDirErr
  | netCreateErr
  | createFail (n : String)
  | startFail (n : String)
deriving DecidableEq, Repr

/-- Oracle fixing every external outcome one `run_internal` call can observe:
`acquire_file_path` on a `Dockerfile::Path`, preacquiring the dockerfile write
file and the network log file, `docker network create`, `docker create`
(returning the trailing-newline-stripped stdout id on success), and
`docker start --attach` (returning the supervising runner on success). -/
structure RunOracle where
  pathOk : String → Bool
  writeDirOk : Bool
  logDirOk : Bool
  netCreateOk : Bool
  create : String → Option String
  start : String → Option CommandRunner

/-- Pre-validation loop of `run_internal` (lines 369-390): walking `names` with
a seen-set, reject a duplicate, then an already-active name, then a name not in
the network; returns the first error. -/
def checkNamesValid (set : List (String × ContainerState)) :
    List String → List String → Option RunErr
  | _, [] => none
  | seen, n :: rest =>
      if n ∈ seen then some (RunErr.dupName n)
      else
        match lookupState set n with
        | some cs =>
            if cs.is_active then some (RunErr.alreadyActive n)
            else checkNamesValid set (n :: seen) rest
        | none => some (RunErr.notInNetwork n)

/-- Dockerfile pre-check loop (lines 392-404): `Dockerfile::Path` must be
acquirable, `Dockerfile::Contents` raises the write-dir flag.  The map index
`self.set[name]` is guarded by the name validation; a missing name (a panic in
Rust) is surfaced as its validation error. -/
def checkDockerfiles (set : List (String × ContainerState)) (o : RunOracle) :
    List String → Except RunErr Bool
  | [] => Except.ok false
  | n :: rest =>
      match lookupState set n with
      | none => Except.error (RunErr.notInNetwork n)
      | some cs =>
          match cs.container.dockerfile with
          | Dockerfile.NameTag _ => checkDockerfiles set o rest
          | Dockerfile.Path p =>
              if o.pathOk p then checkDockerfiles set o rest
              else Except.error (RunErr.dockerfilePathErr n)
          | Dockerfile.Contents _ =>
              (checkDockerfiles set o rest).map (fun _ => true)

/-- Container-creation loop of `run_internal` (lines 451-474): on success the
created id is recorded in `active_container_id`; on failure every
already-created container (`done`, the processed prefix `names[..i]`) is
terminated and the error surfaces — the failing container itself never had an
id recorded. -/
def createLoop (o : RunOracle) :
    ContainerNetwork → List String → List String → ContainerNetwork × Option RunErr
  | cn, _, [] => (cn, none)
  | cn, done, n :: rest =>
      match o.create n with
      | some docker_id =>
          let cn2 : ContainerNetwork :=
            { cn with
              set := updateState (fun cs => { cs with active_container_id := some docker_id })
                cn.set n }
          createLoop o cn2 (done ++ [n]) rest
      | none => (cn.terminateNames done, some (RunErr.createFail n))

/-- Container-start loop of `run_internal` (lines 476-506): on success the
supervising runner is stored as `Active`; on failure every name in `names`
(started or not) is terminated and the error surfaces. -/
def startLoop (o : RunOracle) (allNames : List String) :
    ContainerNetwork → List String → ContainerNetwork × Option RunErr
  | cn, [] => (cn, none)
  | cn, n :: rest =>
      match o.start n with
      | some runner =>
          let cn2 : ContainerNetwork :=
            { cn with
              set := updateState (fun cs => { cs with run_state := RunState.Active runner })
                cn.set n }
          startLoop o allNames cn2 rest
      | none => (cn.terminateNames allNames, some (RunErr.startFail n))

/-- The side-effecting tail of `run_internal`: the create loop followed, on
success, by the start loop over the same names. -/
def runTail (o : RunOracle) (names : List String) (cn2 : ContainerNetwork) :
    ContainerNetwork × Option RunErr :=
  match createLoop o cn2 [] names with
  | (cn3, some e) => (cn3, some e)
  | (cn3, none) => startLoop o names cn3 names

/-- `ContainerNetwork::run_internal` (lines 360-509): pre-validation, dockerfile
checks, write-dir and log-dir preacquisition, network creation when not yet
active, then the create loop followed by the start loop.  The returned pair is
the engine state after the call plus `none` for `Ok(())` or the surfaced
error. -/
def ContainerNetwork.run_internal (cn : ContainerNetwork) (names : List String)
    (o : RunOracle) : ContainerNetwork × Option RunErr :=
  match checkNamesValid cn.set [] names with
  | some e => (cn, some e)
  | none =>
      match checkDockerfiles cn.set o names with
      | Except.error e => (cn, some e)
      | Except.ok needWriteDir =>
          if needWriteDir ∧ ¬ o.writeDirOk then (cn, some RunErr.writeDirErr)
          else if ¬ o.logDirOk then (cn, some RunErr.logDirErr)
          else
            match
              (if cn.network_active then some cn
               else if o.netCreateOk then some { cn with network_active := true }
               else none) with
            | none => (cn, some RunErr.netCreateErr)
            | some cn2 => runTail o names cn2

/-- Character index of the last occurrence of `pat` in `s`, modelling Rust
`str::rfind` on a substring pattern (byte indices become character indices;
no modelled string mixes multi-byte characters with index arithmetic). -/
def strRfind (s pat : String) : Option Nat :=
  ((List.range (s.length + 1)).filter
    (fun i => pat.toList.isPrefixOf (s.toList.drop i))).getLast?

/-- Rust `str::contains` on a substring pattern: some occurrence exists. -/
def strContains (s pat : String) : Bool :=
  (strRfind s pat).isSome

/-- Rust slice `&s[i..]` at a character index. -/
def strDrop (s : String) (i : Nat) : String :=
  String.mk (s.toList.drop i)

/-- Rust slice `&s[0..i]` at a character index. -/
def strTake (s : String) (i : Nat) : String :=
  String.mk (s.toList.take i)

/-- Message pushed for a detected error stack
(docker_network.rs lines 541-544). -/
def stackMsg (name suffix : String) : String :=
  "Error stack from container \"" ++ name ++ "\":\n" ++ suffix ++ "\n"

/-- Message pushed for a detected panic (lines 551-554). -/
def panicMsg (name suffix : String) : String :=
  "Panic message from container \"" ++ name ++ "\":\n" ++ suffix ++ "\n"

/-- Generic message for an unsuccessful container without stack or panic
(lines 559-562). -/
def noStackMsg (name : String) : String :=
  "Error: Container \"" ++ name ++ "\" was unsuccessful but does not seem to have an error stack or panic message\n"

/-- The literal `"Error { stack: ["` scanned by `error_compilation`. -/
def errorStackLit : String := "Error \x7b stack: ["

/-- The literal `" panicked at "` scanned by `error_compilation`. -/
def panickedAtLit : String := " panicked at "

/-- The literal `"ProbablyNotRootCauseError"`. -/
def notRootCauseLit : String := "ProbablyNotRootCauseError"

/-- Per-container step of `error_compilation` (docker_network.rs lines
530-565): for an unsuccessful `PostActive` result, push the stdout suffix from
the last `"Error { stack: ["` unless `"ProbablyNotRootCauseError"` occurs
anywhere in the stdout; push the panic message from the last `"thread"`
preceding the last `" panicked at "`; and when neither fired and the result is
not successful-or-terminated, push the generic message.  The accumulator `res`
models `Error::add_kind_locationless` as appending to a list of messages. -/
def errorCompilationStep (res : List String) (nc : String × ContainerState) :
    List String :=
  match nc.2.run_state with
  | RunState.PostActive comres =>
      if comres.successful then res
      else
        let stdout := comres.stdout
        let stackHit :=
          match strRfind stdout errorStackLit with
          | some start =>
              if strContains stdout notRootCauseLit then none
              else some (stackMsg nc.1 (strDrop stdout start))
          | none => none
        let panicHit :=
          match strRfind stdout panickedAtLit with
          | some i =>
              match strRfind (strTake stdout i) "thread" with
              | some j => some (panicMsg nc.1 (strDrop stdout j))
              | none => none
          | none => none
        let res1 := res ++ stackHit.toList ++ panicHit.toList
        if stackHit.isNone ∧ panicHit.isNone ∧ ¬ comres.successful_or_terminated then
          res1 ++ [noStackMsg nc.1]
        else res1
  | _ => res

/-- `ContainerNetwork::error_compilation` (lines 525-568): fold the step over
the container set starting from `Error::empty()`; the call always returns
`Err`, carrying this message list. -/
def errorCompilation (set : List (String × ContainerState)) : List String :=
  set.foldl errorCompilationStep []

/-- Errors surfaced by `wait_with_timeout`, one constructor per `return Err`
site: the two pre-validation errors, the `CTRLC_ISSUED` cancellation, the
timeout, and the `error_compilation` aggregate. -/
inductive WaitErr where
  | notActive (n : String)
  | notFound (n : String)
  | cancelled
  | timeoutErr
  | compilation (msgs : List String)
deriving DecidableEq, Repr

/-- Pre-validation of `wait_with_timeout` (lines 588-602): every name must be
present and active; first failure wins. -/
def checkWaitNames (set : List (String × ContainerState)) :
    List String → Option WaitErr
  | [] => none
  | n :: rest =>
      match lookupState set n with
      | some cs =>
          if ¬ cs.is_active then some (WaitErr.notActive n)
          else checkWaitNames set rest
      | none => some (WaitErr.notFound n)

/-- The polling loop of `wait_with_timeout` (lines 603-685).

State threaded through the loop: the engine `cn`, the mutable work list
`names`, the `skip_fail` flag, the index `i`, and `passes` counting the
pass boundaries reached so far.  External inputs: `tof`
(`terminate_on_failure`), `egt k` telling whether `elapsed > duration` held at
the `k`-th pass boundary (for `Duration::ZERO` this is constantly true since a
pass takes nonzero time), and the static `CTRLC_ISSUED` flag `ctrlc`.

Each loop iteration checks the cancellation flag, then emptiness; reaching the
pass boundary (`i ≥ names.len()`) resets `i` and either grants the skip_fail
round, times out, or sleeps — in the code the boundary falls through into the
poll of `names[0]` within the same iteration; the model recurses instead,
re-running the two unchanged guards, which decide exactly as before.  Polling
`names[i]`: a finished unsuccessful result with `tof` takes the result out of
the runner, terminates the whole network and returns the error compilation; a
finished result otherwise is stored as `PostActive` and the name removed; a
still-running child advances `i`; a failed poll terminates the runner (and the
network when `tof`) and returns the error compilation.  A non-`Active` state
falls through the `if let` with `i` unchanged (an infinite loop in the code,
fuel exhaustion `none` here); the `unwrap` of a name missing from the set (a
panic in the code) is also modelled as `none`.  Fuel only bounds the recursion
depth of the model; every claim instantiates it above the needed depth. -/
def waitLoop (tof : Bool) (egt : Nat → Bool) (ctrlc : Bool) :
    ContainerNetwork → List String → Bool → Nat → Nat → Nat →
    Option (ContainerNetwork × List String × Option WaitErr)
  | _, _, _, _, _, 0 => none
  | cn, names, skipFail, i, passes, fuel + 1 =>
      if ctrlc then some (cn.terminate_all, names, some WaitErr.cancelled)
      else if names.isEmpty then some (cn, names, none)
      else if h : i < names.length then
        let name := names.get ⟨i, h⟩
        match lookupState cn.set name with
        | none => none
        | some cs =>
            match cs.run_state with
            | RunState.Active runner =>
                match runner.status with
                | RunnerStatus.finished comres =>
                    if tof ∧ ¬ comres.successful then
                      let cn2 : ContainerNetwork :=
                        { cn with
                          set := updateState
                            (fun c =>
                              { c with run_state :=
                                  RunState.Active { runner with termResult := none } })
                            cn.set name }
                      let cn3 := cn2.terminate_all
                      some (cn3, names, some (WaitErr.compilation (errorCompilation cn3.set)))
                    else
                      let cn2 : ContainerNetwork :=
                        { cn with
                          set := updateState
                            (fun c => { c with run_state := RunState.PostActive comres })
                            cn.set name }
                      waitLoop tof egt ctrlc cn2 (names.eraseIdx i) skipFail i passes fuel
                | RunnerStatus.running =>
                    waitLoop tof egt ctrlc cn names skipFail (i + 1) passes fuel
                | RunnerStatus.pollFailed =>
                    if tof then
                      let cn2 := cn.terminate_all
                      some (cn2, names, some (WaitErr.compilation (errorCompilation cn2.set)))
                    else
                      some (cn, names, some (WaitErr.compilation (errorCompilation cn.set)))
            | _ => waitLoop tof egt ctrlc cn names skipFail i passes fuel
      else
        if egt passes then
          if skipFail then waitLoop tof egt ctrlc cn names false 0 (passes + 1) fuel
          else if tof then some (cn.terminate_all, names, some WaitErr.timeoutErr)
          else some (cn, names, some WaitErr.timeoutErr)
        else waitLoop tof egt ctrlc cn names skipFail 0 (passes + 1) fuel

/-- `ContainerNetwork::wait_with_timeout` (lines 582-685): pre-validation, then
the polling loop starting with `skip_fail = true` and `i = 0`. -/
def ContainerNetwork.wait_with_timeout (cn : ContainerNetwork) (names : List String)
    (tof : Bool) (egt : Nat → Bool) (ctrlc : Bool) (fuel : Nat) :
    Option (ContainerNetwork × List String × Option WaitErr) :=
  match checkWaitNames cn.set names with
  | some e => some (cn, names, some e)
  | none => waitLoop tof egt ctrlc cn names true 0 0 fuel

/-- UTF-8 bytes of a string (Rust `String::into_bytes` / `str::as_bytes`). -/
def strBytes (s : String) : List UInt8 :=
  s.toUTF8.toList

/-- src/src/bld/super_configurator/super_tar.rs `SuperTarballWrapper` (the
api_docker `Tarball` that super_docker_file.rs uses is not under src/ and the
spec describes the same append/seal contract, §4.1).  The model keeps the
recorded `paths`; the raw tar byte stream is opaque to every claim and is
dropped. -/
structure Tarball where
  paths : List String
deriving DecidableEq, Repr

/-- The empty tarball (`Default`). -/
def Tarball.empty : Tarball := { paths := [] }

/-- `SuperTarballWrapper::append_file`: push the path onto `paths`, then append
the file to the tar stream, whose I/O success the oracle decides.  Note the
path is recorded before the fallible tar append, and no uniqueness check is
made. -/
def Tarball.append_file (t : Tarball) (path : String) (ok : Bool) : Tarball × Bool :=
  ({ paths := t.paths ++ [path] }, ok)

/-- Modelled from the spec (§4.1): `append_bytes`/`append_file_bytes` appends
inline bytes under an explicit mode; like `append_file` it records the path
with no uniqueness check (the api_docker `Tarball` source is not under src/).
The mode and content do not affect the recorded path list. -/
def Tarball.append_file_bytes (t : Tarball) (path : String) (_mode : Nat)
    (_content : List UInt8) (ok : Bool) : Tarball × Bool :=
  ({ paths := t.paths ++ [path] }, ok)

/-- super_docker_file.rs `SuperDockerfile`.  `build_opts` and `debug` are
opaque to the modelled claims and omitted. -/
structure SuperDockerfile where
  base : Dockerfile
  content_extend : List UInt8
  tarball : Tarball
  build_path : Option String
  image_name : Option String
deriving DecidableEq, Repr

/-- `SuperDockerfile::new`. -/
def SuperDockerfile.new (base : Dockerfile) (image_name : Option String) :
    SuperDockerfile :=
  { base := base
    content_extend := []
    tarball := Tarball.empty
    build_path := none
    image_name := image_name }

/-- `SuperDockerfile::append_dockerfile_lines_mut` (lines 171-177): for each
line push a newline byte, then the line bytes, onto `content_extend`. -/
def SuperDockerfile.append_dockerfile_lines (sdf : SuperDockerfile)
    (v : List String) : SuperDockerfile :=
  { sdf with
    content_extend :=
      v.foldl (fun acc s => acc ++ (10 : UInt8) :: strBytes s) sdf.content_extend }

/-- Filesystem oracle for the assembler: `readFile p` is the byte contents
`std::fs::read`/`File::open` observes at `p` (`none` = I/O error), and
`tarAppendOk p` is whether copying those bytes into the tar stream succeeds. -/
structure FsOracle where
  readFile : String → Option (List UInt8)
  tarAppendOk : String → Bool

/-- The dockerfile bytes assembled by `create_dockerfile_returning_file_handle`
(super_docker_file.rs lines 52-91): the base is rendered — `NameTag nt` as the
bytes of `"FROM nt"`, `Path p` as the bytes read from `p` at render time,
`Contents c` as the inline bytes — and `content_extend` is appended.  The
temp-file round trip is identity on these bytes. -/
def createDockerfileContents (fs : FsOracle) (sdf : SuperDockerfile) :
    Except Unit (List UInt8) :=
  (match sdf.base with
   | Dockerfile.NameTag nt => Except.ok (strBytes ("FROM " ++ nt))
   | Dockerfile.Path p =>
       match fs.readFile p with
       | some bs => Except.ok bs
       | none => Except.error ()
   | Dockerfile.Contents c => Except.ok (strBytes c)).map
    (fun df => df ++ sdf.content_extend)

/-- Modelled from the spec (§4.2; the api_docker `resolve_from_to` source is
not under src/, its older sibling is in impls.rs lines 217-235): the host
source path is resolved against the build path when one is set (`PathBuf::join`
keeps an absolute path as is), the destination is returned unchanged. -/
def resolve_from_to (srcPath dstPath : String) (build_path : Option String) :
    String × String :=
  match build_path with
  | some bp =>
      (if srcPath.startsWith "/" then srcPath else bp ++ "/" ++ srcPath, dstPath)
  | none => (srcPath, dstPath)

/-- One worker of `copying_from_paths` (super_docker_file.rs lines 198-214),
as it acts on the mutex-guarded shared assembler: resolve the paths, open the
host file (a failure here touches nothing), then — holding the lock — append
the `COPY src dst` line and append the file to the tarball (whose I/O can
fail after the line was already recorded).  Returns the assembler state after
the worker and the worker's success. -/
def copyPathItem (fs : FsOracle) (st : SuperDockerfile) (item : String × String) :
    SuperDockerfile × Bool :=
  let ft := resolve_from_to item.1 item.2 st.build_path
  match fs.readFile ft.1 with
  | none => (st, false)
  | some _ =>
      let st1 := st.append_dockerfile_lines ["COPY " ++ ft.1 ++ " " ++ ft.2]
      let tb := st1.tarball.append_file ft.1 (fs.tarAppendOk ft.1)
      ({ st1 with tarball := tb.1 }, tb.2)

/-- The workers of one `copying_from_paths` call, serialized in item order (the
mutex serializes their shared-state sections; `spawn_blocking` tasks run to
completion even when a sibling has already failed).  Returns the final shared
assembler state and whether every worker succeeded. -/
def copyPathsTrace (fs : FsOracle) :
    SuperDockerfile → List (String × String) → SuperDockerfile × Bool
  | st, [] => (st, true)
  | st, item :: rest =>
      let r := copyPathItem fs st item
      let r2 := copyPathsTrace fs r.1 rest
      (r2.1, r.2 && r2.2)

/-- `SuperDockerfile::copying_from_paths` (lines 187-226): `self` is moved into
the shared section and the workers are awaited with `try_join_all`.  The
futures are `JoinHandle<Result<()>>` values, whose `Future` output is
`Result<Result<()>, JoinError>`: the `?` at line 217 propagates only a
`JoinError` (a worker panic or abort, not producible in this pure model),
while the workers' own `Result` values arrive in the `Vec` that the trailing
`;` discards.  An item-level open or append failure therefore does not surface:
the assembler is recovered from the `Arc` and returned in `Ok` with whatever
mutations the workers committed.  The `Err` arm below corresponds to the
`JoinError`/mutex-poisoning paths only and is never taken here. -/
def SuperDockerfile.copying_from_paths (sdf : SuperDockerfile)
    (items : List (String × String)) (fs : FsOracle) : Except Unit SuperDockerfile :=
  Except.ok (copyPathsTrace fs sdf items).1

/-- The fixed in-tarball dockerfile name of `into_bollard_args`. -/
def dockerFileName : String := "./super.dockerfile"

/-- `SuperDockerfile::into_bollard_args` (lines 431-482): render the dockerfile
(can fail reading a `Dockerfile::Path`), append it to the tarball under
`"./super.dockerfile"` (tar I/O can fail), then seal the tarball.  Returns the
`dockerfile` field of the build options together with the sealed tarball; the
label derived from `image_name` and the copied build options are opaque to the
modelled claims and omitted. -/
def SuperDockerfile.into_bollard_args (sdf : SuperDockerfile) (fs : FsOracle) :
    Except Unit (String × Tarball) :=
  match createDockerfileContents fs sdf with
  | Except.error _ => Except.error ()
  | Except.ok _ =>
      let tb := sdf.tarball.append_file dockerFileName (fs.tarAppendOk dockerFileName)
      if tb.2 then Except.ok (dockerFileName, tb.1) else Except.error ()

/-- Cleanup postcondition for one container: not `Active` and no recorded
container id. -/
def CleanCS (cs : ContainerState) : Prop :=
  cs.is_active = false ∧ cs.active_container_id = none

/-- The engine invariant behind `get_active_container_ids`: every `Active`
container has a recorded container id. -/
def NetInv (cn : ContainerNetwork) : Prop :=
  ∀ p ∈ cn.set, p.2.is_active = true → p.2.active_container_id.isSome = true

/-- Every name of `ns` that resolves in the set has a recorded container id. -/
def IdOnL (cn : ContainerNetwork) (ns : List String) : Prop :=
  ∀ n ∈ ns, ∀ cs, lookupState cn.set n = some cs →
    cs.active_container_id.isSome = true

/-- Classifier for the pre-validation errors of `run_internal` (spec §7
`Validation` errors raised by the name checks). -/
def RunErr.isValidation : RunErr → Bool
  | RunErr.dupName _ => true
  | RunErr.alreadyActive _ => true
  | RunErr.notInNetwork _ => true
  | _ => false

/-- Written from the amended claim C3: at call time the name resolves to an
`Active` container whose supervising child has already exited and — when
`terminate_on_failure` — exited successfully. -/
def readyNow (cn : ContainerNetwork) (tof : Bool) (n : String) : Bool :=
  match lookupState cn.set n with
  | some cs =>
      match cs.run_state with
      | RunState.Active runner =>
          match runner.status with
          | RunnerStatus.finished r => !tof || r.successful
          | _ => false
      | _ => false
  | none => false

/-- Written from the spec claim C6: the rendered source bytes — `NameTag` as
the bytes of `"FROM name:tag"`, `Path` as the referenced file's bytes read at
render time, `Contents` as the inline bytes. -/
def specSourceBytes (fs : FsOracle) : Dockerfile → Except Unit (List UInt8)
  | Dockerfile.NameTag nt => Except.ok (strBytes ("FROM " ++ nt))
  | Dockerfile.Path p =>
      match fs.readFile p with
      | some bs => Except.ok bs
      | none => Except.error ()
  | Dockerfile.Contents c => Except.ok (strBytes c)

/-- Written from the spec claim C6: source bytes followed by, for each line of
`L` in order, one newline byte then that line's bytes. -/
def specRenderedBytes (fs : FsOracle) (base : Dockerfile) (L : List String) :
    Except Unit (List UInt8) :=
  (specSourceBytes fs base).map
    (fun src => src ++ (L.map (fun l => (10 : UInt8) :: strBytes l)).flatten)

/-- Success of one `copying_from_paths` item: the resolved host file opens and
its tar append succeeds. -/
def itemOk (fs : FsOracle) (bp : Option String) (it : String × String) : Bool :=
  let ft := resolve_from_to it.1 it.2 bp
  (fs.readFile ft.1).isSome && fs.tarAppendOk ft.1

/-- The `COPY` line a `copying_from_paths` item appends. -/
def copyLine (bp : Option String) (it : String × String) : String :=
  let ft := resolve_from_to it.1 it.2 bp
  "COPY " ++ ft.1 ++ " " ++ ft.2

/-- The tarball path a `copying_from_paths` item records. -/
def copySrcPath (bp : Option String) (it : String × String) : String :=
  (resolve_from_to it.1 it.2 bp).1

/-- Fixture: a container spec used by concrete scenarios. -/
def containerA : Container := { name := "a", dockerfile := Dockerfile.NameTag "alpine:3" }

/-- Fixture: the command result of a child stopped by `terminate()`. -/
def resultCexC2 : CommandResult := { stdout := "", successful := false, terminated := true }

/-- Fixture: an `Active` container whose runner yields `resultCexC2` when
terminated — exactly the state a running container is in. -/
def csCexC2 : ContainerState :=
  { container := containerA
    run_state := RunState.Active { status := RunnerStatus.running, termResult := some resultCexC2 }
    active_container_id := some "id0"
    already_tried_drop := false }

/-- Fixture: an engine owning `csCexC2` with an active network. -/
def cnCexC2 : ContainerNetwork :=
  { network_name := "net"
    network_args := []
    set := [("a", csCexC2)]
    dockerfile_write_dir := none
    log_dir := "./logs"
    network_active := true }

/-- Fixture: a minimal assembler over a `NameTag` base. -/
def sdfW : SuperDockerfile := SuperDockerfile.new (Dockerfile.NameTag "alpine:3") none

/-- Fixture: a filesystem oracle where every read and tar append succeeds. -/
def fsW : FsOracle := { readFile := fun _ => some [], tarAppendOk := fun _ => true }

/-- Fixture: a fresh assembler for the C5 witness. -/
def sdfC5 : SuperDockerfile := SuperDockerfile.new (Dockerfile.NameTag "alpine:3") none

/-- Fixture: a filesystem oracle where only `"./ok"` opens (with one byte of
content) and every tar append succeeds. -/
def fsC5bug : FsOracle :=
  { readFile := fun p => if p = "./ok" then some [65] else none
    tarAppendOk := fun _ => true }

/-- Fixture: stdout carrying an error stack marker. -/
def stdoutC7 : String := "Error \x7b stack: [boom]"

/-- Fixture: an unsuccessful result with the stack marker. -/
def resC7 : CommandResult := { stdout := stdoutC7, successful := false, terminated := false }

/-- Fixture: a `PostActive` container state around `resC7`. -/
def csC7w : ContainerState :=
  { container := { name := "q", dockerfile := Dockerfile.NameTag "alpine:3" }
    run_state := RunState.PostActive resC7
    active_container_id := none
    already_tried_drop := false }

/-- Fixture: a one-container set for the C7 witness. -/
def setC7w : List (String × ContainerState) := [("q", csC7w)]

/-- Fixture: an unsuccessful result with no marker that was stopped by
`terminate()` (exit marked terminated). -/
def resCexC7 : CommandResult := { stdout := "", successful := false, terminated := true }

/-- Fixture: a one-container set holding an unsuccessful terminated
`PostActive` result without markers. -/
def setCexC7 : List (String × ContainerState) :=
  [("q",
    { container := { name := "q", dockerfile := Dockerfile.NameTag "alpine:3" }
      run_state := RunState.PostActive resCexC7
      active_container_id := none
      already_tried_drop := false })]

/-- Fixture: a successful command result. -/
def resOkC4 : CommandResult := { stdout := "", successful := true, terminated := false }

/-- Fixture: a `PostActive` (terminated earlier) container named "a". -/
def csPostC4 : ContainerState :=
  { container := containerA
    run_state := RunState.PostActive resOkC4
    active_container_id := none
    already_tried_drop := false }

/-- Fixture: an engine holding the `PostActive` container "a". -/
def cnCexC4 : ContainerNetwork :=
  { network_name := "net"
    network_args := []
    set := [("a", csPostC4)]
    dockerfile_write_dir := none
    log_dir := "./logs"
    network_active := false }

/-- Fixture: an oracle where every external step of `run` succeeds. -/
def oGoodC4 : RunOracle :=
  { pathOk := fun _ => true
    writeDirOk := true
    logDirOk := true
    netCreateOk := true
    create := fun _ => some "cid"
    start := fun _ => some { status := RunnerStatus.running, termResult := none } }

/-- Cleanup postcondition at a name: any state it resolves to is clean. -/
def cleanAt (cn : ContainerNetwork) (n : String) : Prop :=
  ∀ cs, lookupState cn.set n = some cs → CleanCS cs

/-- Executable formulation of `cleanAt`. -/
def cleanAtB (cn : ContainerNetwork) (n : String) : Bool :=
  match lookupState cn.set n with
  | some cs => !cs.is_active && cs.active_container_id.isNone
  | none => true

/-- Fixture: a second container spec named "b". -/
def containerB : Container := { name := "b", dockerfile := Dockerfile.NameTag "alpine:3" }

/-- Fixture: a `PostActive` container that still has a recorded container id —
the state `wait_with_timeout` leaves behind, since its completion branch stores
`PostActive` without clearing `active_container_id`. -/
def csPostIdC1 : ContainerState :=
  { container := containerB
    run_state := RunState.PostActive resOkC4
    active_container_id := some "oldid"
    already_tried_drop := false }

/-- Fixture: an engine with fresh "a" and id-carrying `PostActive` "b". -/
def cnCexC1 : ContainerNetwork :=
  { network_name := "net"
    network_args := []
    set := [("a", ContainerState.new containerA), ("b", csPostIdC1)]
    dockerfile_write_dir := none
    log_dir := "./logs"
    network_active := true }

/-- Fixture: an oracle whose `docker create` always fails. -/
def oCreateFailC1 : RunOracle :=
  { pathOk := fun _ => true
    writeDirOk := true
    logDirOk := true
    netCreateOk := true
    create := fun _ => none
    start := fun _ => some { status := RunnerStatus.running, termResult := none } }

/-- Fixture: an engine with fresh "a" and "b" and an active network. -/
def cnWC1 : ContainerNetwork :=
  { network_name := "net"
    network_args := []
    set := [("a", ContainerState.new containerA), ("b", ContainerState.new containerB)]
    dockerfile_write_dir := none
    log_dir := "./logs"
    network_active := true }

/-- Fixture: a runner whose child has already exited successfully. -/
def runnerReadyC3 : CommandRunner :=
  { status := RunnerStatus.finished resOkC4, termResult := none }

/-- Fixture: an `Active` container supervising the exited child. -/
def csActiveReadyC3 : ContainerState :=
  { container := containerA
    run_state := RunState.Active runnerReadyC3
    active_container_id := some "cid"
    already_tried_drop := false }

/-- Fixture: an engine holding the ready container "a". -/
def cnWC3 : ContainerNetwork :=
  { network_name := "net"
    network_args := []
    set := [("a", csActiveReadyC3)]
    dockerfile_write_dir := none
    log_dir := "./logs"
    network_active := true }

theorem lookupState_mem {s : List (String × ContainerState)} {k : String}
    {v : ContainerState} (h : lookupState s k = some v) : (k, v) ∈ s := by
  induction s with
  | nil => simp [lookupState] at h
  | cons p rest ih =>
      obtain ⟨k0, v0⟩ := p
      by_cases hk : k0 = k
      · subst hk
        simp [lookupState] at h
        simp [h]
      · simp [lookupState, hk] at h
        exact List.mem_cons_of_mem _ (ih h)

theorem lookupState_updateState (f : ContainerState → ContainerState)
    (s : List (String × ContainerState)) (k n : String) :
    lookupState (updateState f s k) n =
      if k = n then (lookupState s n).map f else lookupState s n := by
  induction s with
  | nil => by_cases h : k = n <;> simp [lookupState, updateState, h]
  | cons p rest ih =>
      obtain ⟨k0, v0⟩ := p
      by_cases hk : k0 = k
      · subst hk
        by_cases hn : k0 = n
        · subst hn
          simp [lookupState, updateState]
        · simp [lookupState, updateState, hn, ih]
      · by_cases hn : k0 = n
        · subst hn
          have : ¬ k = k0 := fun h => hk h.symm
          simp [lookupState, updateState, hk, this]
        · simp [lookupState, updateState, hk, hn, ih]

theorem mem_updateState {f : ContainerState → ContainerState}
    {s : List (String × ContainerState)} {k : String} {q : String × ContainerState}
    (h : q ∈ updateState f s k) :
    q ∈ s ∨ ∃ v, lookupState s k = some v ∧ q = (k, f v) := by
  induction s with
  | nil => simp [updateState] at h
  | cons p rest ih =>
      obtain ⟨k0, v0⟩ := p
      by_cases hk : k0 = k
      · subst hk
        simp [updateState] at h
        rcases h with h | h
        · right
          exact ⟨v0, by simp [lookupState], h⟩
        · left
          exact List.mem_cons_of_mem _ h
      · simp [updateState, hk] at h
        rcases h with h | h
        · left
          simp [h]
        · rcases ih h with h2 | ⟨v, hv, hq⟩
          · left
            exact List.mem_cons_of_mem _ h2
          · right
            exact ⟨v, by simp [lookupState, hk, hv], hq⟩

theorem terminate_clean (cs : ContainerState) : CleanCS cs.terminate := by
  unfold CleanCS ContainerState.terminate
  rcases h : cs.run_state with _ | runner | r <;>
    simp [ContainerState.is_active]
  rcases runner.take_command_result with _ | r2 <;>
    simp [ContainerState.is_active]

theorem terminate_run_state_not_active (cs : ContainerState) :
    cs.terminate.is_active = false :=
  (terminate_clean cs).1

theorem terminate_terminate (cs : ContainerState) :
    cs.terminate.terminate = { cs.terminate with run_state := RunState.PreActive } := by
  unfold ContainerState.terminate
  rcases cs.run_state with _ | runner | r <;> simp
  rcases runner.take_command_result with _ | r2 <;> simp

theorem with_preactive_eq_self (cs : ContainerState)
    (h : cs.run_state = RunState.PreActive) :
    { cs with run_state := RunState.PreActive } = cs := by
  cases cs
  simp_all

/-- C2 counterexample: for the `Active` container state `csCexC2` (whose
terminated runner produces a result), the first `terminate()` stores
`PostActive`, but a second `terminate()` resets `run_state` to `PreActive` —
the state after two calls differs from the state after one, so `terminate()`
is not idempotent; likewise a second `terminate_all()` on the engine changes
the container's `run_state`, so it is not a no-op. -/
theorem terminate_not_idempotent_cex :
    csCexC2.terminate.run_state = RunState.PostActive resultCexC2 ∧
    csCexC2.terminate.terminate.run_state = RunState.PreActive ∧
    csCexC2.terminate.terminate ≠ csCexC2.terminate ∧
    cnCexC2.terminate_all.terminate_all ≠ cnCexC2.terminate_all := by
  decide

/-- C2 (amended): after any `terminate()` the `active_container_id` is `None`;
a second `terminate()` leaves the state unchanged except that it resets the
`run_state` to `PreActive` — so it is a no-op exactly when the first call left
`PreActive`, while a result stored into `PostActive` by the first call is
discarded (`mem::take` leaves the default `PreActive` behind and the
`PostActive` arm stores nothing back).  Likewise `terminate_all()` on an
already-cleaned engine keeps `network_active` false and changes nothing except
resetting each `PostActive` container to `PreActive`. -/
theorem terminate_second_call_behavior :
    (∀ cs : ContainerState,
        cs.terminate.active_container_id = none ∧
        cs.terminate.terminate = { cs.terminate with run_state := RunState.PreActive } ∧
        (cs.terminate.run_state = RunState.PreActive →
          cs.terminate.terminate = cs.terminate)) ∧
    (∀ cn : ContainerNetwork,
        cn.terminate_all.terminate_all.network_active = false ∧
        cn.terminate_all.terminate_all =
          { cn.terminate_all with
            set := cn.terminate_all.set.map
              (fun kv => (kv.1, { kv.2 with run_state := RunState.PreActive })) }) := by
  constructor
  · intro cs
    refine ⟨(terminate_clean cs).2, terminate_terminate cs, ?_⟩
    intro h
    rw [terminate_terminate cs, with_preactive_eq_self _ h]
  · intro cn
    constructor
    · rfl
    · unfold ContainerNetwork.terminate_all ContainerNetwork.terminate_containers
      simp only [List.map_map]
      congr 1
      apply List.map_congr_left
      intro kv _
      simp only [Function.comp]
      rw [terminate_terminate kv.2]

/-- C10: in `wait_with_timeout` the `CTRLC_ISSUED` check is the first statement
of every loop iteration, ahead of the work-list emptiness check: with the flag
set, after pre-validation the call terminates the whole network via
`terminate_all()` and returns the cancelled error — in particular with an
empty `names` list it returns the cancelled error where the unset-flag call
would return Ok. -/
theorem wait_ctrlc_precedes_empty (cn : ContainerNetwork) (names : List String)
    (tof : Bool) (egt : Nat → Bool) (fuel : Nat) :
    (cn.wait_with_timeout names tof egt true (fuel + 1) =
      match checkWaitNames cn.set names with
      | some e => some (cn, names, some e)
      | none => some (cn.terminate_all, names, some WaitErr.cancelled)) ∧
    cn.wait_with_timeout [] tof egt true (fuel + 1) =
      some (cn.terminate_all, [], some WaitErr.cancelled) ∧
    cn.wait_with_timeout [] tof egt false (fuel + 1) = some (cn, [], none) := by
  refine ⟨?_, ?_, ?_⟩
  · cases h : checkWaitNames cn.set names <;>
      simp [ContainerNetwork.wait_with_timeout, h, waitLoop]
  · simp [ContainerNetwork.wait_with_timeout, checkWaitNames, waitLoop]
  · simp [ContainerNetwork.wait_with_timeout, checkWaitNames, waitLoop]

theorem append_lines_bytes (c0 : List UInt8) (L : List String) :
    L.foldl (fun acc s => acc ++ (10 : UInt8) :: strBytes s) c0 =
      c0 ++ (L.map (fun l => (10 : UInt8) :: strBytes l)).flatten := by
  induction L generalizing c0 with
  | nil => simp
  | cons l rest ih => simp [ih, List.append_assoc]

/-- C6: for every Dockerfile source (`NameTag` rendered as the bytes of
`"FROM name:tag"`, `Path` as the referenced file's bytes read at render time,
`Contents` as the inline bytes) and every list `L` of appended instruction
lines, the rendered dockerfile bytes are the source bytes followed by, for each
line of `L` in order, one newline byte then the line's bytes; and appending in
several calls is the same as appending the concatenated list. -/
theorem dockerfile_render_spec :
    (∀ (fs : FsOracle) (base : Dockerfile) (image_name : Option String)
        (L : List String),
       createDockerfileContents fs
         ((SuperDockerfile.new base image_name).append_dockerfile_lines L) =
       specRenderedBytes fs base L) ∧
    (∀ (sdf : SuperDockerfile) (L1 L2 : List String),
       (sdf.append_dockerfile_lines L1).append_dockerfile_lines L2 =
         sdf.append_dockerfile_lines (L1 ++ L2)) := by
  constructor
  · intro fs base image_name L
    cases base with
    | NameTag nt =>
        simp [createDockerfileContents, specRenderedBytes, specSourceBytes,
          SuperDockerfile.new, SuperDockerfile.append_dockerfile_lines,
          append_lines_bytes]
    | Path p =>
        cases h : fs.readFile p <;>
          simp [createDockerfileContents, specRenderedBytes, specSourceBytes,
            SuperDockerfile.new, SuperDockerfile.append_dockerfile_lines,
            append_lines_bytes, h]
    | Contents c =>
        simp [createDockerfileContents, specRenderedBytes, specSourceBytes,
          SuperDockerfile.new, SuperDockerfile.append_dockerfile_lines,
          append_lines_bytes]
  · intro sdf L1 L2
    simp [SuperDockerfile.append_dockerfile_lines, List.foldl_append]

/-- C8 counterexample: two `append_file` calls may record the same in-archive
path — nothing enforces uniqueness, so a tarball whose appends repeat a path
has duplicate entry paths. -/
theorem tarball_dup_paths_cex :
    ((Tarball.empty.append_file "./a" true).1.append_file "./a" true).1.paths
      = ["./a", "./a"] ∧
    ¬ ((Tarball.empty.append_file "./a" true).1.append_file "./a" true).1.paths.Nodup := by
  decide

/-- C8 (amended): the recorded in-archive paths are exactly the appended paths
in append order, with no deduplication or uniqueness check; the path list of an
append is unique iff it was unique before and the new path is fresh; and
`into_bollard_args` records exactly one more entry, `"./super.dockerfile"`, for
the rendered dockerfile. -/
theorem tarball_paths_append_no_dedup :
    (∀ (t : Tarball) (p : String) (ok : Bool),
        (t.append_file p ok).1.paths = t.paths ++ [p]) ∧
    (∀ (t : Tarball) (p : String) (m : Nat) (c : List UInt8) (ok : Bool),
        (t.append_file_bytes p m c ok).1.paths = t.paths ++ [p]) ∧
    (∀ (t : Tarball) (p : String) (ok : Bool),
        ((t.append_file p ok).1.paths.Nodup ↔ t.paths.Nodup ∧ p ∉ t.paths)) ∧
    (∀ (sdf : SuperDockerfile) (fs : FsOracle) (nm : String) (tb : Tarball),
        sdf.into_bollard_args fs = Except.ok (nm, tb) →
          nm = dockerFileName ∧ tb.paths = sdf.tarball.paths ++ [dockerFileName]) := by
  refine ⟨fun t p ok => rfl, fun t p m c ok => rfl, ?_, ?_⟩
  · intro t p ok
    simp [Tarball.append_file, List.nodup_append]
  · intro sdf fs nm tb h
    unfold SuperDockerfile.into_bollard_args at h
    cases hr : createDockerfileContents fs sdf with
    | error e => rw [hr] at h; cases h
    | ok bs =>
        rw [hr] at h
        by_cases hok : fs.tarAppendOk dockerFileName
        · simp [hok, Tarball.append_file] at h
          obtain ⟨h1, h2⟩ := h
          constructor
          · exact h1.symm
          · rw [← h2]
        · simp [hok, Tarball.append_file] at h

/-- Witness for `tarball_paths_append_no_dedup`: its `into_bollard_args`
conjunct applied at a concrete assembler whose call succeeds. -/
theorem tarball_paths_append_no_dedup_witness :
    dockerFileName = dockerFileName ∧
    (Tarball.mk [dockerFileName]).paths = sdfW.tarball.paths ++ [dockerFileName] :=
  tarball_paths_append_no_dedup.2.2.2 sdfW fsW dockerFileName (Tarball.mk [dockerFileName])
    (by rfl)

theorem copyPathItem_fields (fs : FsOracle) (st : SuperDockerfile)
    (it : String × String) :
    (copyPathItem fs st it).1.build_path = st.build_path ∧
    (copyPathItem fs st it).1.base = st.base ∧
    (copyPathItem fs st it).2 = itemOk fs st.build_path it := by
  unfold copyPathItem itemOk
  cases h : fs.readFile (resolve_from_to it.1 it.2 st.build_path).1 <;>
    simp [h, SuperDockerfile.append_dockerfile_lines, Tarball.append_file]

theorem copyPathsTrace_spec (fs : FsOracle) (st : SuperDockerfile)
    (items : List (String × String)) :
    (copyPathsTrace fs st items).1.build_path = st.build_path ∧
    (copyPathsTrace fs st items).2 = items.all (itemOk fs st.build_path) ∧
    (items.all (itemOk fs st.build_path) = true →
      (copyPathsTrace fs st items).1.content_extend =
        st.content_extend ++
          (items.map (fun it => (10 : UInt8) :: strBytes (copyLine st.build_path it))).flatten ∧
      (copyPathsTrace fs st items).1.tarball.paths =
        st.tarball.paths ++ items.map (copySrcPath st.build_path) ∧
      (copyPathsTrace fs st items).1.base = st.base) := by
  induction items generalizing st with
  | nil => simp [copyPathsTrace]
  | cons it rest ih =>
      obtain ⟨hbp, hbase, hok⟩ := copyPathItem_fields fs st it
      have hrest := ih (copyPathItem fs st it).1
      refine ⟨?_, ?_, ?_⟩
      · rw [copyPathsTrace]
        rw [hrest.1, hbp]
      · rw [copyPathsTrace]
        simp only [List.all_cons]
        rw [hrest.2.1, hok, hbp]
      · intro hall
        simp only [List.all_cons, Bool.and_eq_true] at hall
        obtain ⟨hok1, hallrest⟩ := hall
        have hallrest2 : rest.all (itemOk fs (copyPathItem fs st it).1.build_path) = true := by
          rw [hbp]; exact hallrest
        obtain ⟨hce, htp, hb⟩ := hrest.2.2 hallrest2
        have hitem : copyPathItem fs st it =
            ({ st with
                content_extend := st.content_extend ++
                  (10 : UInt8) :: strBytes (copyLine st.build_path it)
                tarball := { paths := st.tarball.paths ++ [copySrcPath st.build_path it] } },
              true) := by
          unfold itemOk at hok1
          cases h : fs.readFile (resolve_from_to it.1 it.2 st.build_path).1 with
          | none => simp [h] at hok1
          | some bs =>
              simp only [h, Option.isSome_some, Bool.true_and] at hok1
              simp [copyPathItem, h, SuperDockerfile.append_dockerfile_lines,
                Tarball.append_file, hok1, copyLine, copySrcPath]
        refine ⟨?_, ?_, ?_⟩
        · rw [copyPathsTrace]
          rw [hce, hbp, hitem]
          simp [List.append_assoc]
        · rw [copyPathsTrace]
          rw [htp, hbp, hitem]
          simp [List.append_assoc]
        · rw [copyPathsTrace]
          rw [hb, hbase]

/-- C5 (code bug): `copying_from_paths` is not all-or-nothing.  Its
`try_join_all` runs over `JoinHandle<Result<()>>` futures, whose output is
`Result<Result<()>, JoinError>`, so the `?` at super_docker_file.rs line 217
propagates only a `JoinError` (worker panic or abort) and the workers' own
`Result` errors arrive in a `Vec` that the trailing `;` discards: the call
never returns `Err` on an item failure, and every successful item's mutations
are committed and returned.  At the concrete input below — the first item
opens, the second does not — the call returns Ok with the first item's `COPY`
line and tarball entry committed, where the spec requires Err with no
instruction recorded.  The older sibling `SuperDockerFile::copying_from_paths`
(impls.rs lines 96-100) does propagate worker errors with a double `?`, and
the function's own contract ("As long as it returns `Ok(_)`, there cannot be
TOCTOU problems") presumes failures surface, so the spec states the intent and
the discarded `Vec<Result>` is the slip. -/
theorem copying_from_paths_partial_commit_bug :
    (∀ (sdf : SuperDockerfile) (items : List (String × String)) (fs : FsOracle),
        ∃ sdf2, sdf.copying_from_paths items fs = Except.ok sdf2) ∧
    itemOk fsC5bug sdfC5.build_path ("./missing", "/b") = false ∧
    sdfC5.copying_from_paths [("./ok", "/a"), ("./missing", "/b")] fsC5bug =
      Except.ok
        { sdfC5 with
          content_extend := (10 : UInt8) :: strBytes "COPY ./ok /a"
          tarball := { paths := ["./ok"] } } :=
  ⟨fun sdf items fs => ⟨(copyPathsTrace fs sdf items).1, rfl⟩, by decide, by rfl⟩

theorem errorCompilationStep_append (res : List String) (nc : String × ContainerState) :
    errorCompilationStep res nc = res ++ errorCompilationStep [] nc := by
  unfold errorCompilationStep
  cases nc.2.run_state with
  | PreActive => simp
  | Active r => simp
  | PostActive comres =>
      by_cases hs : comres.successful <;> simp only [hs, if_true, if_false]
      · simp
      · split_ifs <;> simp [List.append_assoc]

theorem errorCompilation_foldl_acc (acc : List String)
    (l : List (String × ContainerState)) :
    l.foldl errorCompilationStep acc = acc ++ l.foldl errorCompilationStep [] := by
  induction l generalizing acc with
  | nil => simp
  | cons x rest ih =>
      simp only [List.foldl_cons]
      rw [ih (errorCompilationStep acc x), errorCompilationStep_append acc x,
        ih (errorCompilationStep [] x)]
      simp [List.append_assoc]

theorem mem_errorCompilation_of_mem {set : List (String × ContainerState)}
    {nc : String × ContainerState} (h : nc ∈ set) {msg : String}
    (hm : msg ∈ errorCompilationStep [] nc) : msg ∈ errorCompilation set := by
  induction set with
  | nil => cases h
  | cons x rest ih =>
      unfold errorCompilation
      simp only [List.foldl_cons]
      rw [errorCompilation_foldl_acc (errorCompilationStep [] x) rest]
      rcases List.mem_cons.mp h with h1 | h1
      · subst h1
        exact List.mem_append_left _ hm
      · exact List.mem_append_right _ (ih h1)

theorem step_stack_mem {n : String} {cs : ContainerState} {comres : CommandResult}
    {start : Nat} (hrs : cs.run_state = RunState.PostActive comres)
    (hsucc : comres.successful = false)
    (hfind : strRfind comres.stdout errorStackLit = some start)
    (hnoroot : strContains comres.stdout notRootCauseLit = false) :
    stackMsg n (strDrop comres.stdout start) ∈ errorCompilationStep [] (n, cs) := by
  unfold errorCompilationStep
  simp only [hrs, hsucc, hfind, hnoroot]
  cases hp : strRfind comres.stdout panickedAtLit with
  | none => simp [hp]
  | some i =>
      cases ht : strRfind (strTake comres.stdout i) "thread" <;>
        simp [hp, ht]

theorem step_panic_mem {n : String} {cs : ContainerState} {comres : CommandResult}
    {i j : Nat} (hrs : cs.run_state = RunState.PostActive comres)
    (hsucc : comres.successful = false)
    (hp : strRfind comres.stdout panickedAtLit = some i)
    (ht : strRfind (strTake comres.stdout i) "thread" = some j) :
    panicMsg n (strDrop comres.stdout j) ∈ errorCompilationStep [] (n, cs) := by
  unfold errorCompilationStep
  simp only [hrs, hsucc, hp, ht]
  cases hf : strRfind comres.stdout errorStackLit with
  | none => simp [hf]
  | some start =>
      by_cases hr : strContains comres.stdout notRootCauseLit <;> simp [hf, hr]

theorem step_generic_mem {n : String} {cs : ContainerState} {comres : CommandResult}
    (hrs : cs.run_state = RunState.PostActive comres)
    (hsucc : comres.successful = false) (hterm : comres.terminated = false)
    (hf : strRfind comres.stdout errorStackLit = none)
    (hp : strRfind comres.stdout panickedAtLit = none) :
    noStackMsg n ∈ errorCompilationStep [] (n, cs) := by
  unfold errorCompilationStep
  simp [hrs, hsucc, hf, hp, CommandResult.successful_or_terminated, hterm]

/-- C7 (amended): the error aggregated by `error_compilation` includes, for
every unsuccessful `PostActive` container, the stdout suffix from the last
occurrence of the literal `"Error { stack: ["` (omitted when
`"ProbablyNotRootCauseError"` occurs anywhere in that stdout), and the panic
message from the `"thread"` preceding the last occurrence of the literal
`" panicked at "`; and for every unsuccessful container exhibiting neither
marker whose result is not successful-or-terminated (i.e. the child was not
merely stopped by `terminate()`) it includes the generic "unsuccessful but no
stack" message. -/
theorem error_compilation_contents (set : List (String × ContainerState)) :
    (∀ (n : String) (cs : ContainerState) (r : CommandResult) (start : Nat),
      (n, cs) ∈ set → cs.run_state = RunState.PostActive r →
      r.successful = false → strRfind r.stdout errorStackLit = some start →
      strContains r.stdout notRootCauseLit = false →
      stackMsg n (strDrop r.stdout start) ∈ errorCompilation set) ∧
    (∀ (n : String) (cs : ContainerState) (r : CommandResult) (i j : Nat),
      (n, cs) ∈ set → cs.run_state = RunState.PostActive r →
      r.successful = false → strRfind r.stdout panickedAtLit = some i →
      strRfind (strTake r.stdout i) "thread" = some j →
      panicMsg n (strDrop r.stdout j) ∈ errorCompilation set) ∧
    (∀ (n : String) (cs : ContainerState) (r : CommandResult),
      (n, cs) ∈ set → cs.run_state = RunState.PostActive r →
      r.successful = false → r.terminated = false →
      strRfind r.stdout errorStackLit = none →
      strRfind r.stdout panickedAtLit = none →
      noStackMsg n ∈ errorCompilation set) := by
  refine ⟨?_, ?_, ?_⟩
  · intro n cs r start hmem hrs hsucc hfind hnoroot
    exact mem_errorCompilation_of_mem hmem (step_stack_mem hrs hsucc hfind hnoroot)
  · intro n cs r i j hmem hrs hsucc hp ht
    exact mem_errorCompilation_of_mem hmem (step_panic_mem hrs hsucc hp ht)
  · intro n cs r hmem hrs hsucc hterm hf hp
    exact mem_errorCompilation_of_mem hmem (step_generic_mem hrs hsucc hterm hf hp)

/-- Witness for `error_compilation_contents`: its stack conjunct applied at a
concrete unsuccessful container whose stdout holds the stack literal at
index 0. -/
theorem error_compilation_contents_witness :
    strRfind stdoutC7 errorStackLit = some 0 ∧
    stackMsg "q" (strDrop stdoutC7 0) ∈ errorCompilation setC7w :=
  ⟨by decide,
    (error_compilation_contents setC7w).1 "q" csC7w resC7 0 (by decide) (by decide)
      (by decide) (by decide) (by decide)⟩

/-- C7 counterexample: a container that is unsuccessful and exhibits neither
marker, but whose result is flagged terminated, contributes nothing — the code
guards the generic message with `!successful_or_terminated()`, so the
aggregated error of this one-container set is empty and the claimed generic
"unsuccessful but no stack" message is absent. -/
theorem error_compilation_no_generic_for_terminated_cex :
    resCexC7.successful = false ∧
    strRfind resCexC7.stdout errorStackLit = none ∧
    strRfind resCexC7.stdout panickedAtLit = none ∧
    errorCompilation setCexC7 = [] ∧
    ¬ noStackMsg "q" ∈ errorCompilation setCexC7 := by
  decide

theorem checkNamesValid_none {set : List (String × ContainerState)} :
    ∀ (names seen : List String), checkNamesValid set seen names = none →
      names.Nodup ∧ (∀ n ∈ names, n ∉ seen) ∧
        (∀ n ∈ names, ∃ cs, lookupState set n = some cs ∧ cs.is_active = false) := by
  intro names
  induction names with
  | nil => intro seen _; simp
  | cons n rest ih =>
      intro seen h
      unfold checkNamesValid at h
      by_cases hseen : n ∈ seen
      · simp [hseen] at h
      · simp only [hseen, if_false, if_neg] at h
        cases hl : lookupState set n with
        | none => rw [hl] at h; cases h
        | some cs =>
            rw [hl] at h
            by_cases hact : cs.is_active
            · simp [hact] at h
            · simp only [hact, if_false, if_neg] at h
              obtain ⟨hnd, hdisj, hpres⟩ := ih (n :: seen) h
              have hnotin : n ∉ rest := by
                intro hmem
                exact (hdisj n hmem) (List.mem_cons_self n seen)
              refine ⟨List.nodup_cons.mpr ⟨hnotin, hnd⟩, ?_, ?_⟩
              · intro m hm
                rcases List.mem_cons.mp hm with hm1 | hm1
                · subst hm1; exact hseen
                · intro hms
                  exact (hdisj m hm1) (List.mem_cons_of_mem _ hms)
              · intro m hm
                rcases List.mem_cons.mp hm with hm1 | hm1
                · subst hm1
                  exact ⟨cs, hl, by simpa using hact⟩
                · exact hpres m hm1

theorem checkNamesValid_validation {set : List (String × ContainerState)} :
    ∀ (names seen : List String) (e : RunErr),
      checkNamesValid set seen names = some e → e.isValidation = true := by
  intro names
  induction names with
  | nil => intro seen e h; cases h
  | cons n rest ih =>
      intro seen e h
      unfold checkNamesValid at h
      by_cases hseen : n ∈ seen
      · simp [hseen] at h
        subst h; rfl
      · simp only [hseen, if_false, if_neg] at h
        cases hl : lookupState set n with
        | none =>
            rw [hl] at h
            cases h; rfl
        | some cs =>
            rw [hl] at h
            by_cases hact : cs.is_active
            · simp [hact] at h
              subst h; rfl
            · simp only [hact, if_false, if_neg] at h
              exact ih (n :: seen) e h

/-- C4 (amended): `run` pre-validates before any external side effect and
returns a validation error — with the engine state untouched, so no network is
created and no container is created or started — whenever `names` contains a
duplicate, or some name is not present in the engine's set, or some name is
present but currently in the `Active` run state.  (A `PostActive` name passes
validation and is re-run: the code only rejects active names, not every
non-`PreActive` one.) -/
theorem run_prevalidation (cn : ContainerNetwork) (names : List String) (o : RunOracle)
    (hbad : ¬ names.Nodup ∨
      (∃ n ∈ names, lookupState cn.set n = none) ∨
      (∃ n ∈ names, ∃ cs, lookupState cn.set n = some cs ∧ cs.is_active = true)) :
    ∃ e, cn.run_internal names o = (cn, some e) ∧ e.isValidation = true := by
  cases hv : checkNamesValid cn.set [] names with
  | none =>
      exfalso
      obtain ⟨hnd, _, hpres⟩ := checkNamesValid_none names [] hv
      rcases hbad with hbad | ⟨n, hn, hnone⟩ | ⟨n, hn, cs, hcs, hact⟩
      · exact hbad hnd
      · obtain ⟨cs, hl, _⟩ := hpres n hn
        rw [hl] at hnone
        cases hnone
      · obtain ⟨cs2, hl, hact2⟩ := hpres n hn
        rw [hl] at hcs
        cases hcs
        rw [hact] at hact2
        cases hact2
  | some e =>
      refine ⟨e, ?_, checkNamesValid_validation names [] e hv⟩
      unfold ContainerNetwork.run_internal
      rw [hv]

/-- C4 counterexample: name "a" is present but not in the `PreActive` run state
(it is `PostActive`), yet `run(["a"], _)` raises no validation error — the call
proceeds through creation and start and returns Ok, because pre-validation
only rejects `Active` names. -/
theorem run_postactive_passes_validation_cex :
    csPostC4.run_state ≠ RunState.PreActive ∧
    (cnCexC4.run_internal ["a"] oGoodC4).2 = none := by
  decide

/-- Witness for `run_prevalidation`: applied at a concrete engine whose "a" is
`Active`, so `run(["a"], _)` returns a validation error and leaves the engine
untouched. -/
theorem run_prevalidation_witness :
    (∃ n ∈ ["a"], ∃ cs, lookupState cnCexC2.set n = some cs ∧ cs.is_active = true) ∧
    ∃ e, cnCexC2.run_internal ["a"] oGoodC4 = (cnCexC2, some e) ∧
      e.isValidation = true :=
  ⟨⟨"a", by decide, csCexC2, by decide, by decide⟩,
    run_prevalidation cnCexC2 ["a"] oGoodC4
      (Or.inr (Or.inr ⟨"a", by decide, csCexC2, by decide, by decide⟩))⟩

theorem cleanAtB_iff (cn : ContainerNetwork) (n : String) :
    cleanAtB cn n = true ↔ cleanAt cn n := by
  unfold cleanAtB cleanAt CleanCS
  cases h : lookupState cn.set n with
  | none => simp
  | some cs =>
      simp only [Bool.and_eq_true, Bool.not_eq_true', Option.isNone_iff_eq_none]
      constructor
      · rintro ⟨h1, h2⟩ cs2 hcs2
        cases hcs2
        exact ⟨h1, h2⟩
      · intro h2
        exact h2 cs rfl

theorem terminateNames_nil (cn : ContainerNetwork) : cn.terminateNames [] = cn := rfl

theorem terminateNames_cons (cn : ContainerNetwork) (m : String) (rest : List String) :
    cn.terminateNames (m :: rest) =
      ({ cn with set := updateState ContainerState.terminate cn.set m }).terminateNames
        rest := rfl

theorem terminateNames_network (cn : ContainerNetwork) (ns : List String) :
    (cn.terminateNames ns).network_active = cn.network_active := by
  induction ns generalizing cn with
  | nil => rfl
  | cons m rest ih =>
      rw [terminateNames_cons]
      exact ih _

theorem lookup_terminateNames_not_mem {cn : ContainerNetwork} {ns : List String}
    {n : String} (h : n ∉ ns) :
    lookupState (cn.terminateNames ns).set n = lookupState cn.set n := by
  induction ns generalizing cn with
  | nil => rfl
  | cons m rest ih =>
      rw [terminateNames_cons]
      have hm : ¬ m = n := fun e => h (e ▸ List.mem_cons_self m rest)
      rw [ih (fun hmem => h (List.mem_cons_of_mem _ hmem))]
      simp [lookupState_updateState, hm]

theorem terminateNames_cleanAt_mem {cn : ContainerNetwork} {ns : List String}
    {n : String} (h : n ∈ ns) : cleanAt (cn.terminateNames ns) n := by
  induction ns generalizing cn with
  | nil => cases h
  | cons m rest ih =>
      rw [terminateNames_cons]
      by_cases hr : n ∈ rest
      · exact ih hr
      · have hnm : m = n := by
          rcases List.mem_cons.mp h with h1 | h1
          · exact h1.symm
          · exact absurd h1 hr
        intro cs hcs
        rw [lookup_terminateNames_not_mem hr, lookupState_updateState, if_pos hnm] at hcs
        cases hv : lookupState cn.set n with
        | none => rw [hv] at hcs; cases hcs
        | some v =>
            rw [hv] at hcs
            simp only [Option.map_some'] at hcs
            cases hcs
            exact terminate_clean v

theorem createLoop_network (o : RunOracle) :
    ∀ (rest done : List String) (cn : ContainerNetwork),
      (createLoop o cn done rest).1.network_active = cn.network_active := by
  intro rest
  induction rest with
  | nil => intro done cn; rfl
  | cons m rest2 ih =>
      intro done cn
      cases h : o.create m with
      | some docker_id =>
          simp only [createLoop, h]
          exact ih (done ++ [m]) _
      | none =>
          simp only [createLoop, h]
          exact terminateNames_network cn done

theorem createLoop_err_clean (o : RunOracle) :
    ∀ (rest done : List String) (cn cn2 : ContainerNetwork) (e : RunErr),
      createLoop o cn done rest = (cn2, some e) →
      (∀ n ∈ rest, cleanAt cn n) → rest.Nodup →
      ∀ n, (n ∈ done ∨ n ∈ rest) → cleanAt cn2 n := by
  intro rest
  induction rest with
  | nil =>
      intro done cn cn2 e h
      simp [createLoop] at h
  | cons m rest2 ih =>
      intro done cn cn2 e h hclean hnd n hn
      cases hc : o.create m with
      | none =>
          simp only [createLoop, hc] at h
          cases h
          rcases hn with hn | hn
          · by_cases hd : n ∈ done
            · exact terminateNames_cleanAt_mem hd
            · exact absurd hn hd
          · by_cases hd : n ∈ done
            · exact terminateNames_cleanAt_mem hd
            · intro cs hcs
              rw [lookup_terminateNames_not_mem hd] at hcs
              exact hclean n hn cs hcs
      | some docker_id =>
          simp only [createLoop, hc] at h
          have hnd2 := List.nodup_cons.mp hnd
          have hclean2 : ∀ q ∈ rest2,
              cleanAt
                ({ cn with
                   set := updateState
                     (fun cs => { cs with active_container_id := some docker_id })
                     cn.set m }) q := by
            intro q hq cs hcs
            simp only [lookupState_updateState] at hcs
            have hmq : ¬ m = q := fun e2 => hnd2.1 (e2 ▸ hq)
            rw [if_neg hmq] at hcs
            exact hclean q (List.mem_cons_of_mem _ hq) cs hcs
          refine ih (done ++ [m]) _ cn2 e h hclean2 hnd2.2 n ?_
          rcases hn with hn | hn
          · exact Or.inl (List.mem_append_left _ hn)
          · rcases List.mem_cons.mp hn with h1 | h1
            · subst h1
              exact Or.inl (List.mem_append_right _ (List.mem_singleton.mpr rfl))
            · exact Or.inr h1

theorem startLoop_network (o : RunOracle) (allNames : List String) :
    ∀ (rest : List String) (cn : ContainerNetwork),
      (startLoop o allNames cn rest).1.network_active = cn.network_active := by
  intro rest
  induction rest with
  | nil => intro cn; rfl
  | cons m rest2 ih =>
      intro cn
      cases h : o.start m with
      | some runner =>
          simp only [startLoop, h]
          exact ih _
      | none =>
          simp only [startLoop, h]
          exact terminateNames_network cn allNames

theorem startLoop_err_clean (o : RunOracle) (allNames : List String) :
    ∀ (rest : List String) (cn cn2 : ContainerNetwork) (e : RunErr),
      startLoop o allNames cn rest = (cn2, some e) →
      ∀ n ∈ allNames, cleanAt cn2 n := by
  intro rest
  induction rest with
  | nil =>
      intro cn cn2 e h
      simp [startLoop] at h
  | cons m rest2 ih =>
      intro cn cn2 e h n hn
      cases hs : o.start m with
      | some runner =>
          simp only [startLoop, hs] at h
          exact ih _ cn2 e h n hn
      | none =>
          simp only [startLoop, hs] at h
          cases h
          exact terminateNames_cleanAt_mem hn

theorem checkDockerfiles_err {set : List (String × ContainerState)} {o : RunOracle} :
    ∀ (names : List String) (e : RunErr), checkDockerfiles set o names = Except.error e →
      ∃ n, e = RunErr.notInNetwork n ∨ e = RunErr.dockerfilePathErr n := by
  intro names
  induction names with
  | nil => intro e h; cases h
  | cons n rest ih =>
      intro e h
      unfold checkDockerfiles at h
      cases hl : lookupState set n with
      | none =>
          simp only [hl] at h
          cases h
          exact ⟨n, Or.inl rfl⟩
      | some cs =>
          simp only [hl] at h
          cases hd : cs.container.dockerfile with
          | NameTag s =>
              simp only [hd] at h
              exact ih e h
          | Path p =>
              simp only [hd] at h
              by_cases hp : o.pathOk p
              · rw [if_pos hp] at h
                exact ih e h
              · rw [if_neg hp] at h
                cases h
                exact ⟨n, Or.inr rfl⟩
          | Contents c =>
              simp only [hd] at h
              cases hrec : checkDockerfiles set o rest with
              | error e2 =>
                  simp only [hrec, Except.map] at h
                  cases h
                  exact ih _ hrec
              | ok b =>
                  simp only [hrec, Except.map] at h
                  cases h

theorem runTail_spec (o : RunOracle) (names : List String) (cn2 : ContainerNetwork)
    (hclean : ∀ n ∈ names, cleanAt cn2 n) (hnd : names.Nodup) :
    ((runTail o names cn2).2.isSome →
       ∀ n ∈ names, cleanAt (runTail o names cn2).1 n) ∧
    (runTail o names cn2).1.network_active = cn2.network_active := by
  unfold runTail
  cases hcl : createLoop o cn2 [] names with
  | mk cn3 r =>
      cases r with
      | some e0 =>
          constructor
          · intro _ n hn
            exact createLoop_err_clean o names [] cn2 cn3 e0 hcl hclean hnd n (Or.inr hn)
          · have h2 := createLoop_network o names [] cn2
            rw [hcl] at h2
            exact h2
      | none =>
          constructor
          · intro hs n hn
            cases he : (startLoop o names cn3 names).2 with
            | none => rw [he] at hs; cases hs
            | some e =>
                have heq : startLoop o names cn3 names =
                    ((startLoop o names cn3 names).1, some e) := by
                  rw [← he]
                exact startLoop_err_clean o names names cn3 _ e heq n hn
          · have h1 := startLoop_network o names names cn3
            have h2 := createLoop_network o names [] cn2
            rw [hcl] at h2
            rw [h1, h2]

/-- C1 (amended): for every `run(names, debug)` call made while each name in
`names` is not `Active` and has `active_container_id = None`, if the call
returns `Err` then at return no name in `names` is in the `Active` run state
and every name in `names` has `active_container_id = None`: on a create
failure at position `i` the engine first invokes `terminate()` on each
already-created container among `names[0..i]` (container `i` itself never had
an id recorded), and on a start failure it invokes `terminate()` on every name
in `names`, before surfacing the error; the docker network itself is left in
place (`network_active` is still true after a create or start failure).
Without the entry hypothesis the claim fails — validation errors leave an
`Active` name active, and a `PostActive` name with a recorded id past the
failing position keeps its id (see the counterexample). -/
theorem run_internal_err_cleanup (cn : ContainerNetwork) (names : List String)
    (o : RunOracle) (hpre : ∀ n ∈ names, cleanAtB cn n = true) :
    ∀ e, (cn.run_internal names o).2 = some e →
      (∀ n ∈ names, cleanAtB (cn.run_internal names o).1 n = true) ∧
      ((∃ m, e = RunErr.createFail m ∨ e = RunErr.startFail m) →
        (cn.run_internal names o).1.network_active = true) := by
  intro e he
  unfold ContainerNetwork.run_internal at he ⊢
  cases hv : checkNamesValid cn.set [] names with
  | some e0 =>
      simp only [hv] at he ⊢
      cases he
      refine ⟨hpre, ?_⟩
      rintro ⟨m, h | h⟩ <;>
        (subst h
         have hval := checkNamesValid_validation names [] _ hv
         simp [RunErr.isValidation] at hval)
  | none =>
      simp only [hv] at he ⊢
      have hnd := (checkNamesValid_none names [] hv).1
      cases hd : checkDockerfiles cn.set o names with
      | error e0 =>
          simp only [hd] at he ⊢
          cases he
          refine ⟨hpre, ?_⟩
          rintro ⟨m, h | h⟩ <;>
            (subst h
             obtain ⟨n2, h2 | h2⟩ := checkDockerfiles_err names _ hd <;> cases h2)
      | ok needWD =>
          simp only [hd] at he ⊢
          by_cases hw : needWD = true ∧ ¬ o.writeDirOk = true
          · simp only [if_pos hw] at he ⊢
            cases he
            exact ⟨hpre, by rintro ⟨m, h | h⟩ <;> cases h⟩
          · simp only [if_neg hw] at he ⊢
            by_cases hl : ¬ o.logDirOk = true
            · simp only [if_pos hl] at he ⊢
              cases he
              exact ⟨hpre, by rintro ⟨m, h | h⟩ <;> cases h⟩
            · simp only [if_neg hl] at he ⊢
              have hmain : ∀ cn2 : ContainerNetwork, cn2.set = cn.set →
                  cn2.network_active = true →
                  (runTail o names cn2).2 = some e →
                  (∀ n ∈ names, cleanAtB (runTail o names cn2).1 n = true) ∧
                  ((∃ m, e = RunErr.createFail m ∨ e = RunErr.startFail m) →
                    (runTail o names cn2).1.network_active = true) := by
                intro cn2 hset hna2 he2
                have hclean : ∀ n ∈ names, cleanAt cn2 n := by
                  intro n hn
                  have := (cleanAtB_iff cn n).mp (hpre n hn)
                  intro cs hcs
                  rw [hset] at hcs
                  exact this cs hcs
                obtain ⟨hpost, hnet⟩ := runTail_spec o names cn2 hclean hnd
                constructor
                · intro n hn
                  exact (cleanAtB_iff _ n).mpr
                    (hpost (by rw [he2]; rfl) n hn)
                · intro _
                  rw [hnet, hna2]
              cases hna : cn.network_active with
              | true =>
                  simp only [hna, if_true] at he ⊢
                  exact hmain cn rfl hna he
              | false =>
                  simp only [hna] at he ⊢
                  by_cases hnc : o.netCreateOk = true
                  · simp only [hnc, if_true, if_false] at he ⊢
                    exact hmain { cn with network_active := true } rfl rfl he
                  · simp only [hnc, if_false] at he ⊢
                    cases he
                    exact ⟨hpre, by rintro ⟨m, h | h⟩ <;> cases h⟩

/-- C1 counterexample, two concrete `Err` runs violating the claim as stated:
(1) `run(["a"])` on an engine whose "a" is `Active` returns the validation
`Err` and leaves "a" `Active`; (2) `run(["a","b"])` where "b" is `PostActive`
with a recorded id (as `wait_with_timeout` leaves it) and creation of "a"
fails returns `Err` with "b" still holding `active_container_id = Some` —
cleanup only covers `names[0..i]`. -/
theorem run_err_cleanup_cex :
    ((cnCexC2.run_internal ["a"] oGoodC4).2 = some (RunErr.alreadyActive "a") ∧
      lookupState (cnCexC2.run_internal ["a"] oGoodC4).1.set "a" = some csCexC2 ∧
      csCexC2.is_active = true) ∧
    ((cnCexC1.run_internal ["a", "b"] oCreateFailC1).2 = some (RunErr.createFail "a") ∧
      lookupState (cnCexC1.run_internal ["a", "b"] oCreateFailC1).1.set "b" =
        some csPostIdC1 ∧
      csPostIdC1.active_container_id = some "oldid") := by
  decide

/-- Witness for `run_internal_err_cleanup`: applied at a concrete clean engine
whose create step fails, so the `Err` run leaves both names clean and the
network in place. -/
theorem run_internal_err_cleanup_witness :
    (∀ n ∈ ["a", "b"], cleanAtB cnWC1 n = true) ∧
    ((∀ n ∈ ["a", "b"],
        cleanAtB (cnWC1.run_internal ["a", "b"] oCreateFailC1).1 n = true) ∧
      ((∃ m, RunErr.createFail "a" = RunErr.createFail m ∨
          RunErr.createFail "a" = RunErr.startFail m) →
        (cnWC1.run_internal ["a", "b"] oCreateFailC1).1.network_active = true)) :=
  ⟨by decide,
    run_internal_err_cleanup cnWC1 ["a", "b"] oCreateFailC1 (by decide)
      (RunErr.createFail "a") (by decide)⟩

theorem getActiveIdsAux_isSome :
    ∀ (l : List (String × ContainerState)),
      (∀ p ∈ l, p.2.is_active = true → p.2.active_container_id.isSome = true) →
      (getActiveIdsAux l).isSome = true := by
  intro l
  induction l with
  | nil => intro _; rfl
  | cons q rest ih =>
      intro hinv
      obtain ⟨n, cs⟩ := q
      unfold getActiveIdsAux
      by_cases hact : cs.is_active = true
      · have hid := hinv (n, cs) (List.mem_cons_self _ _) hact
        cases hcs : cs.active_container_id with
        | none => rw [hcs] at hid; cases hid
        | some id =>
            simp only [hact, if_true, hcs]
            have := ih (fun p hp => hinv p (List.mem_cons_of_mem _ hp))
            cases hx : getActiveIdsAux rest with
            | none => rw [hx] at this; cases this
            | some v => simp
      · simp only [hact, if_false, if_neg]
        exact ih (fun p hp => hinv p (List.mem_cons_of_mem _ hp))

theorem NetInv_updateState {cn : ContainerNetwork} {f : ContainerState → ContainerState}
    {k : String} (hinv : NetInv cn)
    (hf : ∀ v, lookupState cn.set k = some v → (f v).is_active = true →
      (f v).active_container_id.isSome = true) :
    NetInv { cn with set := updateState f cn.set k } := by
  intro p hp hact
  rcases mem_updateState hp with hp2 | ⟨v, hv, rfl⟩
  · exact hinv p hp2 hact
  · exact hf v hv hact

theorem NetInv_terminate_containers (cn : ContainerNetwork) :
    NetInv cn.terminate_containers := by
  intro p hp hact
  simp only [ContainerNetwork.terminate_containers, List.mem_map] at hp
  obtain ⟨q, _, rfl⟩ := hp
  rw [terminate_run_state_not_active q.2] at hact
  cases hact

theorem NetInv_terminate_all (cn : ContainerNetwork) : NetInv cn.terminate_all :=
  NetInv_terminate_containers cn

theorem NetInv_terminateNames {cn : ContainerNetwork} (hinv : NetInv cn)
    (ns : List String) : NetInv (cn.terminateNames ns) := by
  induction ns generalizing cn with
  | nil => exact hinv
  | cons m rest ih =>
      rw [terminateNames_cons]
      refine ih ?_
      refine NetInv_updateState hinv ?_
      intro v _ hact
      rw [terminate_run_state_not_active v] at hact
      cases hact

theorem createLoop_NetInv (o : RunOracle) :
    ∀ (rest done : List String) (cn : ContainerNetwork), NetInv cn →
      NetInv (createLoop o cn done rest).1 := by
  intro rest
  induction rest with
  | nil => intro done cn hinv; exact hinv
  | cons m rest2 ih =>
      intro done cn hinv
      cases hc : o.create m with
      | some docker_id =>
          simp only [createLoop, hc]
          refine ih (done ++ [m]) _ ?_
          exact NetInv_updateState hinv (fun v _ _ => rfl)
      | none =>
          simp only [createLoop, hc]
          exact NetInv_terminateNames hinv done

theorem createLoop_preserves_idSome (o : RunOracle) :
    ∀ (rest done : List String) (cn cn3 : ContainerNetwork),
      createLoop o cn done rest = (cn3, none) → ∀ n : String,
      (∀ cs, lookupState cn.set n = some cs → cs.active_container_id.isSome = true) →
      ∀ cs, lookupState cn3.set n = some cs → cs.active_container_id.isSome = true := by
  intro rest
  induction rest with
  | nil =>
      intro done cn cn3 h n hn
      cases h
      exact hn
  | cons m rest2 ih =>
      intro done cn cn3 h n hn
      cases hc : o.create m with
      | some docker_id =>
          simp only [createLoop, hc] at h
          refine ih (done ++ [m]) _ cn3 h n ?_
          intro cs hcs
          simp only [lookupState_updateState] at hcs
          by_cases hm : m = n
          · rw [if_pos hm] at hcs
            cases hlk : lookupState cn.set n with
            | none => rw [hlk] at hcs; cases hcs
            | some v =>
                rw [hlk] at hcs
                simp only [Option.map_some'] at hcs
                cases hcs
                rfl
          · rw [if_neg hm] at hcs
            exact hn cs hcs
      | none =>
          simp only [createLoop, hc] at h
          cases h

theorem createLoop_IdOnL (o : RunOracle) :
    ∀ (rest done : List String) (cn cn3 : ContainerNetwork),
      createLoop o cn done rest = (cn3, none) → ∀ n ∈ rest,
      ∀ cs, lookupState cn3.set n = some cs → cs.active_container_id.isSome = true := by
  intro rest
  induction rest with
  | nil => intro done cn cn3 _ n hn; cases hn
  | cons m rest2 ih =>
      intro done cn cn3 h n hn
      cases hc : o.create m with
      | none => simp only [createLoop, hc] at h; cases h
      | some docker_id =>
          simp only [createLoop, hc] at h
          rcases List.mem_cons.mp hn with rfl | hn2
          · refine createLoop_preserves_idSome o rest2 (done ++ [n]) _ cn3 h n ?_
            intro cs hcs
            simp only [lookupState_updateState, if_pos rfl] at hcs
            cases hlk : lookupState cn.set n with
            | none => rw [hlk] at hcs; cases hcs
            | some v =>
                rw [hlk] at hcs
                simp only [Option.map_some'] at hcs
                cases hcs
                rfl
          · exact ih (done ++ [m]) _ cn3 h n hn2

theorem startLoop_NetInv (o : RunOracle) (allNames : List String) :
    ∀ (rest : List String) (cn : ContainerNetwork), NetInv cn →
      (∀ n ∈ rest, ∀ cs, lookupState cn.set n = some cs →
        cs.active_container_id.isSome = true) →
      NetInv (startLoop o allNames cn rest).1 := by
  intro rest
  induction rest with
  | nil => intro cn hinv _; exact hinv
  | cons m rest2 ih =>
      intro cn hinv hid
      cases hs : o.start m with
      | none =>
          simp only [startLoop, hs]
          exact NetInv_terminateNames hinv allNames
      | some runner =>
          simp only [startLoop, hs]
          refine ih _ ?_ ?_
          · refine NetInv_updateState hinv ?_
            intro v hv _
            exact hid m (List.mem_cons_self _ _) v hv
          · intro n hn cs hcs
            simp only [lookupState_updateState] at hcs
            by_cases hm : m = n
            · rw [if_pos hm] at hcs
              cases hlk : lookupState cn.set n with
              | none => rw [hlk] at hcs; cases hcs
              | some v =>
                  rw [hlk] at hcs
                  simp only [Option.map_some'] at hcs
                  cases hcs
                  exact hid n (hm ▸ List.mem_cons_self _ _) v hlk
            · rw [if_neg hm] at hcs
              exact hid n (List.mem_cons_of_mem _ hn) cs hcs

theorem runTail_NetInv (o : RunOracle) (names : List String) (cn2 : ContainerNetwork)
    (hinv : NetInv cn2) : NetInv (runTail o names cn2).1 := by
  unfold runTail
  cases hcl : createLoop o cn2 [] names with
  | mk cn3 r =>
      cases r with
      | some e0 =>
          have := createLoop_NetInv o names [] cn2 hinv
          rw [hcl] at this
          exact this
      | none =>
          have hinv3 : NetInv cn3 := by
            have := createLoop_NetInv o names [] cn2 hinv
            rw [hcl] at this
            exact this
          exact startLoop_NetInv o names names cn3 hinv3
            (createLoop_IdOnL o names [] cn2 cn3 hcl)

theorem run_internal_NetInv (cn : ContainerNetwork) (names : List String)
    (o : RunOracle) (hinv : NetInv cn) : NetInv (cn.run_internal names o).1 := by
  unfold ContainerNetwork.run_internal
  cases hv : checkNamesValid cn.set [] names with
  | some e0 => exact hinv
  | none =>
      cases hd : checkDockerfiles cn.set o names with
      | error e0 => exact hinv
      | ok needWD =>
          by_cases hw : needWD = true ∧ ¬ o.writeDirOk = true
          · simp only [if_pos hw]
            exact hinv
          · simp only [if_neg hw]
            by_cases hl : ¬ o.logDirOk = true
            · simp only [if_pos hl]
              exact hinv
            · simp only [if_neg hl]
              split
              · exact hinv
              · next cn2 heq =>
                  refine runTail_NetInv o names cn2 ?_
                  by_cases hna : cn.network_active = true
                  · rw [if_pos hna] at heq
                    cases heq
                    exact hinv
                  · rw [if_neg hna] at heq
                    by_cases hnc : o.netCreateOk = true
                    · rw [if_pos hnc] at heq
                      cases heq
                      exact hinv
                    · rw [if_neg hnc] at heq
                      cases heq

theorem waitLoop_NetInv (tof : Bool) (egt : Nat → Bool) (ctrlc : Bool) :
    ∀ (fuel : Nat) (cn : ContainerNetwork) (names : List String) (sf : Bool)
      (i passes : Nat) (res : ContainerNetwork × List String × Option WaitErr),
      waitLoop tof egt ctrlc cn names sf i passes fuel = some res →
      NetInv cn → NetInv res.1 := by
  intro fuel
  induction fuel with
  | zero => intro cn names sf i p res h _; cases h
  | succ fuel ih =>
      intro cn names sf i p res h hinv
      rw [waitLoop] at h
      by_cases hc : ctrlc = true
      · rw [if_pos hc] at h
        cases h
        exact NetInv_terminate_all cn
      · rw [if_neg hc] at h
        by_cases hemp : names.isEmpty = true
        · rw [if_pos hemp] at h
          cases h
          exact hinv
        · rw [if_neg hemp] at h
          by_cases hlen : i < names.length
          · rw [dif_pos hlen] at h
            cases hlk : lookupState cn.set (names.get ⟨i, hlen⟩) with
            | none =>
                simp only [hlk] at h
                cases h
            | some cs =>
                simp only [hlk] at h
                cases hrs : cs.run_state with
                | PreActive =>
                    simp only [hrs] at h
                    exact ih _ _ _ _ _ _ h hinv
                | PostActive r =>
                    simp only [hrs] at h
                    exact ih _ _ _ _ _ _ h hinv
                | Active runner =>
                    simp only [hrs] at h
                    cases hst : runner.status with
                    | finished comres =>
                        simp only [hst] at h
                        by_cases herr : tof = true ∧ ¬ comres.successful = true
                        · rw [if_pos herr] at h
                          cases h
                          exact NetInv_terminate_all _
                        · rw [if_neg herr] at h
                          refine ih _ _ _ _ _ _ h ?_
                          refine NetInv_updateState hinv ?_
                          intro v _ hact
                          simp [ContainerState.is_active] at hact
                    | running =>
                        simp only [hst] at h
                        exact ih _ _ _ _ _ _ h hinv
                    | pollFailed =>
                        simp only [hst] at h
                        by_cases htof : tof = true
                        · rw [if_pos htof] at h
                          cases h
                          exact NetInv_terminate_all _
                        · rw [if_neg htof] at h
                          cases h
                          exact hinv
          · rw [dif_neg hlen] at h
            by_cases hegt : egt p = true
            · rw [if_pos hegt] at h
              by_cases hsf : sf = true
              · rw [if_pos hsf] at h
                exact ih _ _ _ _ _ _ h hinv
              · rw [if_neg hsf] at h
                by_cases htof : tof = true
                · rw [if_pos htof] at h
                  cases h
                  exact NetInv_terminate_all _
                · rw [if_neg htof] at h
                  cases h
                  exact hinv
            · rw [if_neg hegt] at h
              exact ih _ _ _ _ _ _ h hinv

/-- C9: the engine invariant — every `Active` container state has
`active_container_id = Some` — is preserved by `add_container`, `run`,
`wait_with_timeout`, `terminate`, `terminate_containers` and `terminate_all`
(run records the created id strictly before setting `Active`, and `terminate`
clears the id only while taking the state out of `Active`); consequently the
`unwrap` inside `get_active_container_ids` never panics (the model returns
`some`). -/
theorem active_id_invariant (cn : ContainerNetwork) (hinv : NetInv cn) :
    (∀ c : Container, NetInv (cn.add_container c).1) ∧
    (∀ (names : List String) (o : RunOracle), NetInv (cn.run_internal names o).1) ∧
    (∀ (names : List String) (tof : Bool) (egt : Nat → Bool) (ctrlc : Bool)
        (fuel : Nat) (res : ContainerNetwork × List String × Option WaitErr),
        cn.wait_with_timeout names tof egt ctrlc fuel = some res → NetInv res.1) ∧
    (∀ ns : List String, NetInv (cn.terminateNames ns)) ∧
    NetInv cn.terminate_containers ∧
    NetInv cn.terminate_all ∧
    cn.get_active_container_ids.isSome = true := by
  refine ⟨?_, ?_, ?_, ?_, NetInv_terminate_containers cn, NetInv_terminate_all cn, ?_⟩
  · intro c
    unfold ContainerNetwork.add_container
    split
    · exact hinv
    · cases hl : lookupState cn.set c.name with
      | some _ => exact hinv
      | none =>
          intro q hq hact
          rcases List.mem_append.mp hq with hq2 | hq2
          · exact hinv q hq2 hact
          · have : q = (c.name, ContainerState.new c) := List.mem_singleton.mp hq2
            subst this
            simp [ContainerState.new, ContainerState.is_active] at hact
  · intro names o
    exact run_internal_NetInv cn names o hinv
  · intro names tof egt ctrlc fuel res h
    unfold ContainerNetwork.wait_with_timeout at h
    cases hv : checkWaitNames cn.set names with
    | some e =>
        rw [hv] at h
        cases h
        exact hinv
    | none =>
        rw [hv] at h
        exact waitLoop_NetInv tof egt ctrlc fuel cn names true 0 0 res h hinv
  · intro ns
    exact NetInv_terminateNames hinv ns
  · exact getActiveIdsAux_isSome cn.set hinv

/-- Witness for `active_id_invariant`: applied at a concrete engine (two
`PreActive` containers) satisfying the invariant; its
`get_active_container_ids` is a `some`. -/
theorem active_id_invariant_witness :
    NetInv cnWC1 ∧ cnWC1.get_active_container_ids.isSome = true :=
  ⟨by unfold NetInv; decide, (active_id_invariant cnWC1 (by unfold NetInv; decide)).2.2.2.2.2.2⟩

theorem readyNow_congr {cn cn2 : ContainerNetwork} {tof : Bool} {n : String}
    (h : lookupState cn2.set n = lookupState cn.set n) :
    readyNow cn2 tof n = readyNow cn tof n := by
  unfold readyNow
  rw [h]

theorem get_zero_cons (a : String) (l : List String) (h : 0 < (a :: l).length) :
    (a :: l).get ⟨0, h⟩ = a := rfl

theorem checkWaitNames_none_of_ready {cn : ContainerNetwork} {tof : Bool} :
    ∀ (names : List String), (∀ n ∈ names, readyNow cn tof n = true) →
      checkWaitNames cn.set names = none := by
  intro names
  induction names with
  | nil => intro _; rfl
  | cons m rest ih =>
      intro hready
      have hr := hready m (List.mem_cons_self _ _)
      unfold readyNow at hr
      unfold checkWaitNames
      cases hlk : lookupState cn.set m with
      | none =>
          simp only [hlk] at hr
          exact absurd hr (by decide)
      | some cs =>
          simp only [hlk] at hr
          simp only [hlk]
          cases hrs : cs.run_state with
          | PreActive =>
              simp only [hrs] at hr
              exact absurd hr (by decide)
          | PostActive r =>
              simp only [hrs] at hr
              exact absurd hr (by decide)
          | Active runner =>
              have hact : cs.is_active = true := by
                simp [ContainerState.is_active, hrs]
              rw [if_neg (by simp [hact])]
              exact ih (fun n hn => hready n (List.mem_cons_of_mem _ hn))

theorem mem_eraseIdx_of_ne {l : List String} {i : Nat} {n : String} (hn : n ∈ l)
    (hi : i < l.length) (hne : n ≠ l.get ⟨i, hi⟩) : n ∈ l.eraseIdx i := by
  induction l generalizing i with
  | nil => cases hn
  | cons a rest ih =>
      cases i with
      | zero =>
          simp only [List.eraseIdx]
          rcases List.mem_cons.mp hn with h2 | h2
          · exact absurd h2 (by simpa using hne)
          · exact h2
      | succ j =>
          simp only [List.eraseIdx]
          rcases List.mem_cons.mp hn with h2 | h2
          · exact h2 ▸ List.mem_cons_self _ _
          · exact List.mem_cons_of_mem _
              (ih h2 (by simpa using hi) (by simpa using hne))

theorem waitLoop_all_ready (tof : Bool) (egt : Nat → Bool) :
    ∀ (names : List String) (cn : ContainerNetwork) (sf : Bool) (p : Nat),
      names.Nodup → (∀ n ∈ names, readyNow cn tof n = true) →
      ∃ cn2, waitLoop tof egt false cn names sf 0 p (names.length + 1) =
        some (cn2, [], none) := by
  intro names
  induction names with
  | nil =>
      intro cn sf p _ _
      refine ⟨cn, ?_⟩
      rw [waitLoop]
      simp
  | cons m rest ih =>
      intro cn sf p hnd hready
      have hr := hready m (List.mem_cons_self _ _)
      unfold readyNow at hr
      cases hlk : lookupState cn.set m with
      | none =>
          simp only [hlk] at hr
          exact absurd hr (by decide)
      | some cs =>
          simp only [hlk] at hr
          cases hrs : cs.run_state with
          | PreActive =>
              simp only [hrs] at hr
              exact absurd hr (by decide)
          | PostActive r =>
              simp only [hrs] at hr
              exact absurd hr (by decide)
          | Active runner =>
              simp only [hrs] at hr
              cases hst : runner.status with
              | running =>
                  simp only [hst] at hr
                  exact absurd hr (by decide)
              | pollFailed =>
                  simp only [hst] at hr
                  exact absurd hr (by decide)
              | finished comres =>
                  simp only [hst] at hr
                  have herr : ¬ (tof = true ∧ ¬ comres.successful = true) := by
                    rintro ⟨h1, h2⟩
                    rw [h1] at hr
                    simp at hr
                    exact h2 hr
                  have hnd2 := List.nodup_cons.mp hnd
                  have hreadyU : ∀ n ∈ rest,
                      readyNow
                        { cn with
                          set := updateState
                            (fun c => { c with run_state := RunState.PostActive comres })
                            cn.set m } tof n = true := by
                    intro n hn
                    have hne : ¬ m = n := fun e => hnd2.1 (e ▸ hn)
                    have heq : lookupState
                        ({ cn with
                           set := updateState
                             (fun c => { c with run_state := RunState.PostActive comres })
                             cn.set m } : ContainerNetwork).set n =
                        lookupState cn.set n := by
                      simp only [lookupState_updateState, if_neg hne]
                    rw [readyNow_congr heq]
                    exact hready n (List.mem_cons_of_mem _ hn)
                  obtain ⟨cn2, hrec⟩ := ih _ sf p hnd2.2 hreadyU
                  refine ⟨cn2, ?_⟩
                  rw [waitLoop]
                  rw [if_neg (by simp : ¬ (false = true))]
                  rw [if_neg (by simp : ¬ ((m :: rest).isEmpty = true))]
                  rw [dif_pos (by simp : 0 < (m :: rest).length)]
                  simp only [get_zero_cons, hlk, hrs, hst, if_neg herr,
                    List.eraseIdx, List.length_cons]
                  exact hrec

theorem waitLoop_unready_not_ok (tof : Bool) (egt : Nat → Bool) :
    ∀ (fuel : Nat) (cn : ContainerNetwork) (names : List String) (sf : Bool)
      (i p : Nat) (n : String), n ∈ names → readyNow cn tof n = false →
      ∀ (cn2 : ContainerNetwork) (ns2 : List String),
        waitLoop tof egt false cn names sf i p fuel ≠ some (cn2, ns2, none) := by
  intro fuel
  induction fuel with
  | zero => intro cn names sf i p n _ _ cn2 ns2 h; cases h
  | succ fuel ih =>
      intro cn names sf i p n hn hun cn2 ns2 h
      have hnemp : ¬ names.isEmpty = true := by
        cases names with
        | nil => cases hn
        | cons a l => simp [List.isEmpty]
      rw [waitLoop] at h
      rw [if_neg (by simp : ¬ (false = true))] at h
      rw [if_neg hnemp] at h
      by_cases hlen : i < names.length
      · rw [dif_pos hlen] at h
        cases hlk : lookupState cn.set (names.get ⟨i, hlen⟩) with
        | none =>
            simp only [hlk] at h
            cases h
        | some cs =>
            simp only [hlk] at h
            cases hrs : cs.run_state with
            | PreActive =>
                simp only [hrs] at h
                exact ih cn names sf i p n hn hun cn2 ns2 h
            | PostActive r =>
                simp only [hrs] at h
                exact ih cn names sf i p n hn hun cn2 ns2 h
            | Active runner =>
                simp only [hrs] at h
                cases hst : runner.status with
                | running =>
                    simp only [hst] at h
                    exact ih cn names sf (i + 1) p n hn hun cn2 ns2 h
                | pollFailed =>
                    simp only [hst] at h
                    by_cases htof : tof = true
                    · rw [if_pos htof] at h
                      simp at h
                    · rw [if_neg htof] at h
                      simp at h
                | finished comres =>
                    simp only [hst] at h
                    by_cases herr : tof = true ∧ ¬ comres.successful = true
                    · rw [if_pos herr] at h
                      simp at h
                    · rw [if_neg herr] at h
                      have hready_nm : readyNow cn tof (names.get ⟨i, hlen⟩) = true := by
                        unfold readyNow
                        simp only [hlk, hrs, hst]
                        cases htof : tof with
                        | false => simp
                        | true =>
                            have hsucc : comres.successful = true := by
                              by_contra hs
                              exact herr ⟨htof, by simpa using hs⟩
                            simp [hsucc]
                      have hne : n ≠ names.get ⟨i, hlen⟩ := by
                        intro he
                        rw [he, hready_nm] at hun
                        cases hun
                      refine ih _ (names.eraseIdx i) sf i p n
                        (mem_eraseIdx_of_ne hn hlen hne) ?_ cn2 ns2 h
                      have heq : lookupState
                          (updateState
                            (fun c => { c with run_state := RunState.PostActive comres })
                            cn.set (names.get ⟨i, hlen⟩)) n =
                          lookupState cn.set n := by
                        rw [lookupState_updateState]
                        rw [if_neg
                          (show ¬ names.get ⟨i, hlen⟩ = n from fun e => hne (Eq.symm e))]
                      rw [readyNow_congr heq]
                      exact hun
      · rw [dif_neg hlen] at h
        by_cases hegt : egt p = true
        · rw [if_pos hegt] at h
          by_cases hsf : sf = true
          · rw [if_pos hsf] at h
            exact ih cn names false 0 (p + 1) n hn hun cn2 ns2 h
          · rw [if_neg hsf] at h
            by_cases htof : tof = true
            · rw [if_pos htof] at h
              simp at h
            · rw [if_neg htof] at h
              simp at h
        · rw [if_neg hegt] at h
          exact ih cn names sf 0 (p + 1) n hn hun cn2 ns2 h

/-- C3 (amended): with the cancellation flag unset and duplicate-free `names`,
`wait_with_timeout(names, terminate_on_failure, Duration::ZERO)` — each
pass-boundary elapsed check exceeding the zero budget — returns Ok iff at the
moment of the call every name resolves to an `Active` container whose
supervising child has already exited and, when `terminate_on_failure`, exited
successfully.  (The skip_fail extra round only grants a second poll of each
name; under a static oracle it changes nothing.)  The claim as stated is
false: a name already `PostActive` at call time is rejected by the
pre-validation as "already inactive" — see the counterexample. -/
theorem wait_zero_iff (cn : ContainerNetwork) (names : List String) (tof : Bool)
    (hnd : names.Nodup) :
    (∃ cn2, cn.wait_with_timeout names tof (fun _ => true) false (names.length + 1) =
        some (cn2, [], none)) ↔
      ∀ n ∈ names, readyNow cn tof n = true := by
  constructor
  · rintro ⟨cn2, h⟩ n hn
    by_contra hun
    have hun2 : readyNow cn tof n = false := by
      cases hx : readyNow cn tof n
      · rfl
      · exact absurd hx hun
    unfold ContainerNetwork.wait_with_timeout at h
    cases hv : checkWaitNames cn.set names with
    | some e =>
        rw [hv] at h
        simp at h
    | none =>
        rw [hv] at h
        exact waitLoop_unready_not_ok tof (fun _ => true) (names.length + 1) cn names
          true 0 0 n hn hun2 cn2 [] h
  · intro hready
    obtain ⟨cn2, h⟩ := waitLoop_all_ready tof (fun _ => true) names cn true 0 hnd hready
    refine ⟨cn2, ?_⟩
    unfold ContainerNetwork.wait_with_timeout
    rw [checkWaitNames_none_of_ready names hready]
    exact h

/-- Witness for `wait_zero_iff`: at a concrete engine whose single name is
`Active` with an already-exited successful child, the zero-duration wait
returns Ok. -/
theorem wait_zero_iff_witness :
    (["a"] : List String).Nodup ∧
    (∃ cn2, cnWC3.wait_with_timeout ["a"] true (fun _ => true) false
        ((["a"] : List String).length + 1) = some (cn2, [], none)) :=
  ⟨by decide, (wait_zero_iff cnWC3 ["a"] true (by decide)).mpr (by decide)⟩

/-- C3 counterexample: a name already in the `PostActive` run state makes the
zero-duration wait return the "already inactive" validation error, not Ok —
the claim's "Ok iff every name was already PostActive" fails in both
directions on this input. -/
theorem wait_zero_postactive_cex :
    csPostC4.run_state = RunState.PostActive resOkC4 ∧
    cnCexC4.wait_with_timeout ["a"] false (fun _ => true) false 2 =
      some (cnCexC4, ["a"], some (WaitErr.notActive "a")) := by
  decide

/-- Witness for `terminate_second_call_behavior`: its conditional no-op clause
applied at a concrete fresh state, whose first `terminate()` leaves
`PreActive`, so the second call is a no-op. -/
theorem terminate_second_call_behavior_witness :
    (ContainerState.new containerA).terminate.run_state = RunState.PreActive ∧
    (ContainerState.new containerA).terminate.terminate =
      (ContainerState.new containerA).terminate :=
  ⟨by decide,
    (terminate_second_call_behavior.1 (ContainerState.new containerA)).2.2 (by decide)⟩
